import Mathlib

/-!
Verification of the cubic wiki-generator pipeline: shallow embedding of the
path filter, line-numbering window, citation parser/linker, evidence scorer,
and the pipeline validation stages, with strings modelled as `List Char`.
-/

/-- Strings are modelled as lists of characters. -/
abbrev Str := List Char

/-- Character is an ASCII decimal digit (the `\d` class of the marker regex). -/
def isDigitChar (c : Char) : Bool := 48 ≤ c.toNat && c.toNat ≤ 57

/-- Character admitted inside the citation path capture group `[^:\]]`. -/
def isPathChar (c : Char) : Bool := !(c = ':' || c = ']')

/-- Whitespace per the JavaScript `\s` class / `String.prototype.trim`. -/
def jsWhitespace (c : Char) : Bool :=
  c.toNat = 9 || c.toNat = 10 || c.toNat = 11 || c.toNat = 12 || c.toNat = 13 ||
  c.toNat = 32 || c.toNat = 160 || c.toNat = 5760 ||
  (8192 ≤ c.toNat && c.toNat ≤ 8202) ||
  c.toNat = 8232 || c.toNat = 8233 || c.toNat = 8239 || c.toNat = 8287 ||
  c.toNat = 12288 || c.toNat = 65279

/-- ASCII lower-casing, modelling `String.prototype.toLowerCase` (the pipeline
only inspects ASCII letters and digits afterwards). -/
def jsToLowerChar (c : Char) : Char :=
  if 65 ≤ c.toNat && c.toNat ≤ 90 then Char.ofNat (c.toNat + 32) else c

/-- Lower-case alphanumeric character, the `[a-z0-9]` class of `tokenize`. -/
def isLowerAlnum (c : Char) : Bool :=
  (97 ≤ c.toNat && c.toNat ≤ 122) || (48 ≤ c.toNat && c.toNat ≤ 57)

/-- Splitting on a separator character, modelling `String.prototype.split`
with a one-character separator: the result is always non-empty and empty
pieces are kept. -/
def splitOnChar (sep : Char) : Str → List Str
  | [] => [[]]
  | c :: cs =>
    if c = sep then [] :: splitOnChar sep cs
    else
      match splitOnChar sep cs with
      | [] => [[c]]
      | piece :: pieces => (c :: piece) :: pieces

/-- Joining with a separator character, modelling `Array.prototype.join`. -/
def joinWith (sep : Char) : List Str → Str
  | [] => []
  | [l] => l
  | l :: l' :: ls => l ++ sep :: joinWith sep (l' :: ls)

/-- Dropping a prefix by a predicate never lengthens a list. -/
theorem lengthDropWhileLe (p : α → Bool) (l : List α) : (l.dropWhile p).length ≤ l.length := by
  induction l with
  | nil => simp
  | cons c cs ih =>
    rw [List.dropWhile_cons]
    by_cases h : p c = true
    · simp only [h, if_true]
      calc (List.dropWhile p cs).length ≤ cs.length := ih
        _ ≤ (c :: cs).length := by simp
    · simp [h]

/-- Left trim of JavaScript whitespace. -/
def trimLeftWs (s : Str) : Str := s.dropWhile jsWhitespace

/-- Right trim of JavaScript whitespace. -/
def trimRightWs (s : Str) : Str := (s.reverse.dropWhile jsWhitespace).reverse

/-- Model of `String.prototype.trim`. -/
def jsTrim (s : Str) : Str := trimRightWs (trimLeftWs s)

/-- First-occurrence deduplication with an accumulator of already seen
elements, modelling the JavaScript `[...new Set(xs)]` idiom (insertion
order, first occurrence wins). -/
def dedupFirst [DecidableEq α] (seen : List α) : List α → List α
  | [] => []
  | x :: xs => if x ∈ seen then dedupFirst seen xs else x :: dedupFirst (x :: seen) xs

/-- Lookup in an association list where a later binding for the same key
overrides an earlier one, modelling a JavaScript `Map` built by successive
`set` calls. -/
def lookupLast [DecidableEq κ] (entries : List (κ × α)) (k : κ) : Option α :=
  entries.foldl (fun acc kv => if kv.1 = k then some kv.2 else acc) none

/-- Decimal digit character of a value taken modulo ten. -/
def digitChar10 (n : Nat) : Char :=
  match n % 10 with
  | 0 => '0' | 1 => '1' | 2 => '2' | 3 => '3' | 4 => '4'
  | 5 => '5' | 6 => '6' | 7 => '7' | 8 => '8' | _ => '9'

/-- Reversed decimal digit list of a positive natural number, with
structural fuel (the value itself bounds the number of digits). -/
def natDigitsRevAux : Nat → Nat → List Char
  | _, 0 => []
  | 0, _ + 1 => []
  | fuel + 1, n + 1 => digitChar10 ((n + 1) % 10) :: natDigitsRevAux fuel ((n + 1) / 10)

/-- Reversed decimal digit list of a positive natural number. -/
def natDigitsRev (n : Nat) : List Char := natDigitsRevAux n n

/-- Decimal rendering of a natural number, modelling `Number.prototype.toString`
on the non-negative integers produced by the pipeline. -/
def natToStr (n : Nat) : Str := if n = 0 then ['0'] else (natDigitsRev n).reverse

/-- Value of a decimal digit string, modelling `Number.parseInt(s, 10)` on a
string matched by `\d+`. -/
def digitsToNat (s : Str) : Nat := s.foldl (fun acc c => 10 * acc + (c.toNat - 48)) 0

/-!
Embedding of `src/lib/citations/line-numbering.ts`.
-/

/-- Model of `countLines`: `content.split("\n").length`. -/
def countLines (content : Str) : Nat := (splitOnChar '\n' content).length

/-- Model of `formatNumberedLine`: the line number rendered right-aligned in a
five-character column (`padStart(5, " ")`), then `" | "`, then the line. -/
def formatNumberedLine (lineNumber : Nat) (line : Str) : Str :=
  let digits := natToStr lineNumber
  List.replicate (5 - digits.length) ' ' ++ digits ++ ' ' :: '|' :: ' ' :: line

/-- Lines numbered consecutively starting at `start`, modelling the
`map((line, index) => format(start + index, line))` idiom. -/
def numberLinesFrom (start : Nat) : List Str → List Str
  | [] => []
  | l :: ls => formatNumberedLine start l :: numberLinesFrom (start + 1) ls

/-- Model of `toNumberedContent`. -/
def toNumberedContent (content : Str) : Str :=
  joinWith '\n' (numberLinesFrom 1 (splitOnChar '\n' content))

/-- Text of the omission marker line emitted between head and tail. -/
def omissionMarker (omitted : Nat) : Str :=
  "... (".data ++ natToStr omitted ++ " lines omitted) ...".data

/-- Model of `buildNumberedContextWindow`. -/
def buildNumberedContextWindow (content : Str) (maxLines headLines tailLines : Nat) : Str :=
  let lines := splitOnChar '\n' content
  let total := lines.length
  if total ≤ maxLines then
    joinWith '\n' (numberLinesFrom 1 lines)
  else
    let headEnd := min headLines total
    let tailStart := max (total - tailLines + 1) (headEnd + 1)
    let headPart := numberLinesFrom 1 (lines.take headEnd)
    let tailPart := numberLinesFrom tailStart (lines.drop (tailStart - 1))
    joinWith '\n' (headPart ++ omissionMarker (tailStart - headEnd - 1) :: tailPart)

/-!
Embedding of `src/lib/github/filters.ts`.
-/

/-- Model of the `BINARY_EXTENSIONS` set. -/
def BINARY_EXTENSIONS : List Str :=
  ["png".data, "jpg".data, "jpeg".data, "gif".data, "ico".data, "webp".data,
   "pdf".data, "zip".data, "tar".data, "gz".data, "mp3".data, "mp4".data,
   "mov".data, "wasm".data, "exe".data, "dll".data]

/-- Model of the `SKIP_DIR_SEGMENTS` set. -/
def SKIP_DIR_SEGMENTS : List Str :=
  ["node_modules".data, ".agents".data, ".claude".data, ".next".data,
   "dist".data, "build".data, "coverage".data, ".coverage".data, ".git".data,
   ".turbo".data, ".cache".data, "vendor".data, "test".data, "tests".data,
   "__tests__".data]

/-- Model of the `LOCKFILE_NAMES` set. -/
def LOCKFILE_NAMES : List Str :=
  ["package-lock.json".data, "yarn.lock".data, "pnpm-lock.yaml".data,
   "bun.lockb".data, "Cargo.lock".data, "composer.lock".data]

/-- Model of `shouldIncludePath`. -/
def shouldIncludePath (path : Str) : Bool :=
  if path = [] || path.getLast? = some '/' then false
  else
    let segments := splitOnChar '/' path
    if segments.any (fun segment => segment ∈ SKIP_DIR_SEGMENTS) then false
    else
      let fileName := segments.getLastD []
      if fileName ∈ LOCKFILE_NAMES then false
      else
        let extension :=
          if fileName.contains '.' then ((splitOnChar '.' fileName).getLastD []).map jsToLowerChar
          else []
        if extension ≠ [] && extension ∈ BINARY_EXTENSIONS then false
        else true

/-- Model of `cleanTreePaths`: deduplicate, trim, drop empties, filter. -/
def cleanTreePaths (paths : List Str) : List Str :=
  ((((dedupFirst [] paths).map jsTrim).filter (fun path => 0 < path.length)).filter
    shouldIncludePath)

/-!
Embedding of the permalink builder (`buildGitHubPermalink`).
-/

/-- Characters that `encodeURIComponent` leaves unescaped. -/
def isUnreservedURIChar (c : Char) : Bool :=
  (65 ≤ c.toNat && c.toNat ≤ 90) || (97 ≤ c.toNat && c.toNat ≤ 122) ||
  (48 ≤ c.toNat && c.toNat ≤ 57) ||
  c = '-' || c = '_' || c = '.' || c = '!' || c = '~' || c = '*' ||
  c = Char.ofNat 39 || c = '(' || c = ')'

/-- UTF-8 bytes of a character, used for percent-encoding. -/
def utf8BytesOfChar (c : Char) : List Nat :=
  let n := c.toNat
  if n < 128 then [n]
  else if n < 2048 then [192 + n / 64, 128 + n % 64]
  else if n < 65536 then [224 + n / 4096, 128 + (n / 64) % 64, 128 + n % 64]
  else [240 + n / 262144, 128 + (n / 4096) % 64, 128 + (n / 64) % 64, 128 + n % 64]

/-- Upper-case hexadecimal digit of a value taken modulo sixteen. -/
def hexDigitUpper (n : Nat) : Char :=
  if n % 16 < 10 then digitChar10 (n % 16) else Char.ofNat (55 + n % 16)

/-- Percent-encoding of one byte, as `%XX` with upper-case hex digits. -/
def percentEncodeByte (b : Nat) : Str := ['%', hexDigitUpper (b / 16), hexDigitUpper b]

/-- Model of `encodeURIComponent`. -/
def encodeURIComponentStr : Str → Str
  | [] => []
  | c :: cs =>
    (if isUnreservedURIChar c then [c]
     else (utf8BytesOfChar c).foldr (fun b acc => percentEncodeByte b ++ acc) []) ++
    encodeURIComponentStr cs

/-- Model of `buildGitHubPermalink`: the path is percent-encoded segment by
segment, and the anchor keeps the `-L<end>` range suffix only when
`endLine` is present, truthy and strictly greater than `startLine`. -/
def buildGitHubPermalink (owner repo sha path : Str) (startLine : Nat) (endLine : Option Nat) : Str :=
  let encodedPath := joinWith '/' ((splitOnChar '/' path).map encodeURIComponentStr)
  let lineAnchor :=
    if 0 < endLine.getD 0 && startLine < endLine.getD 0 then
      '#' :: 'L' :: (natToStr startLine ++ '-' :: 'L' :: natToStr (endLine.getD 0))
    else '#' :: 'L' :: natToStr startLine
  "https://github.com/".data ++ owner ++ '/' :: (repo ++ "/blob/".data ++ sha ++
    '/' :: (encodedPath ++ lineAnchor))

/-!
Embedding of `src/lib/citations/parser.ts`.
-/

/-- Derived field set of the `Citation` interface. -/
structure Citation where
  path : Str
  startLine : Nat
  endLine : Nat
  url : Str
deriving DecidableEq

/-- Expect one specific character at the head of the input, consuming it. -/
def expectChar (c : Char) : Str → Option Str
  | x :: xs => if x = c then some xs else none
  | [] => none

/-- Greedy non-empty run of characters satisfying the class `p`, returning
the run and the remaining suffix (the `+`-quantified capture groups). -/
def takeWhile1 (p : Char → Bool) (s : Str) : Option (Str × Str) :=
  if s.takeWhile p = [] then none else some (s.takeWhile p, s.dropWhile p)

/-- Attempted match of the citation marker regular expression
`\[\[cite:([^:\]]+):(\d+)-(\d+)\]\]` at the start of the input, returning the
path capture, the two parsed line numbers and the suffix after the match.
The char classes `[^:\]]` and `\d` are disjoint from the delimiters that
follow them, so the regex backtracks into no alternative layouts and this
greedy single pass is exact. -/
def matchCiteAt (s : Str) : Option (Str × Nat × Nat × Str) :=
  match s with
  | '[' :: '[' :: 'c' :: 'i' :: 't' :: 'e' :: ':' :: rest0 =>
    (takeWhile1 isPathChar rest0).bind (fun pr =>
      (expectChar ':' pr.2).bind (fun r2 =>
        (takeWhile1 isDigitChar r2).bind (fun dar =>
          (expectChar '-' dar.2).bind (fun r4 =>
            (takeWhile1 isDigitChar r4).bind (fun dbr =>
              (expectChar ']' dbr.2).bind (fun r6 =>
                (expectChar ']' r6).map (fun rest =>
                  (pr.1, digitsToNat dar.1, digitsToNat dbr.1, rest))))))))
  | _ => none

/-- Successful `expectChar` exposes the head of the input. -/
theorem expectChar_some {c : Char} {s r : Str} (h : expectChar c s = some r) : s = c :: r := by
  match s with
  | [] => exact absurd h (by simp [expectChar])
  | x :: xs =>
    by_cases hx : x = c
    · subst hx
      simp [expectChar] at h
      rw [h]
    · simp [expectChar, hx] at h

/-- Successful `takeWhile1` splits the input into a non-empty satisfying run
and a strictly shorter suffix. -/
theorem takeWhile1_some {p : Char → Bool} {s t r : Str} (h : takeWhile1 p s = some (t, r)) :
    t = s.takeWhile p ∧ r = s.dropWhile p ∧ t ≠ [] ∧ t ++ r = s ∧ r.length < s.length := by
  unfold takeWhile1 at h
  split at h
  · exact absurd h (by simp)
  · rename_i hne
    obtain ⟨rfl, rfl⟩ : t = s.takeWhile p ∧ r = s.dropWhile p := by
      constructor <;> (injection h with h'; simp_all)
    refine ⟨rfl, rfl, hne, List.takeWhile_append_dropWhile p s, ?_⟩
    have hlen : (s.takeWhile p).length + (s.dropWhile p).length = s.length := by
      rw [← List.length_append, List.takeWhile_append_dropWhile]
    have : 0 < (s.takeWhile p).length := List.length_pos.mpr hne
    omega

/-- A successful marker match consumes at least one character, which is what
makes the left-to-right scan of the replacement loop terminate. -/
theorem matchCiteAt_some_length {s praw : Str} {a b : Nat} {rest : Str}
    (h : matchCiteAt s = some (praw, a, b, rest)) : rest.length < s.length := by
  unfold matchCiteAt at h
  split at h
  · rename_i rest0
    simp only [Option.bind_eq_some, Option.map_eq_some'] at h
    obtain ⟨pr, hpr, r2, hr2, dar, hdar, r4, hr4, dbr, hdbr, r6, hr6, rest', hrest', heq⟩ := h
    obtain ⟨rfl, rfl, rfl, rfl⟩ : praw = pr.1 ∧ a = digitsToNat dar.1 ∧
        b = digitsToNat dbr.1 ∧ rest = rest' := by
      refine ⟨?_, ?_, ?_, ?_⟩ <;> (injection heq with h1 h2; simp_all)
    have l1 := (takeWhile1_some hpr).2.2.2.2
    have l2 : pr.2.length = r2.length + 1 := by rw [expectChar_some hr2]; simp
    have l3 := (takeWhile1_some hdar).2.2.2.2
    have l4 : dar.2.length = r4.length + 1 := by rw [expectChar_some hr4]; simp
    have l5 := (takeWhile1_some hdbr).2.2.2.2
    have l6 : dbr.2.length = r6.length + 1 := by rw [expectChar_some hr6]; simp
    have l7 : r6.length = rest.length + 1 := by rw [expectChar_some hrest']; simp
    simp only [List.length_cons]
    omega
  · exact absurd h (by simp)

/-- Convenience constructor for the literal text of a citation marker. -/
def citeMarker (p : Str) (a b : Nat) : Str :=
  '[' :: '[' :: 'c' :: 'i' :: 't' :: 'e' :: ':' ::
    (p ++ ':' :: (natToStr a ++ '-' :: (natToStr b ++ [']', ']'])))

/-- Literal text of the inline link a valid marker is rewritten to. -/
def citeLink (p : Str) (a b : Nat) (url : Str) : Str :=
  '[' :: (p ++ ':' :: (natToStr a ++ '-' :: (natToStr b ++ ']' :: '(' :: (url ++ [')']))))

/-- The replacement callback of `parseAndLinkCitations` for one matched
marker: trim the path capture, look up the true line count (`0`/absent is
falsy, hence rejected), validate the parsed range, and on success produce the
inline link and the citation; on failure produce the empty replacement and no
citation. -/
def citeReplacement (owner repo sha : Str) (lineCounts : List (Str × Nat))
    (pathRaw : Str) (startLine endLine : Nat) : Str × Option Citation :=
  let path := jsTrim pathRaw
  let maxLines := (lookupLast lineCounts path).getD 0
  if maxLines = 0 then ([], none)
  else if startLine = 0 || endLine < startLine || maxLines < endLine then ([], none)
  else
    let url := buildGitHubPermalink owner repo sha path startLine (some endLine)
    (citeLink path startLine endLine url, some ⟨path, startLine, endLine, url⟩)

/-- Left-to-right scan of the markdown by the global-regex `replace` loop:
at each position either the marker matches (and is replaced by
`citeReplacement`) or one character is copied verbatim.  Citations are
collected in match order, duplicates included.  The structural fuel is
bounded below by the input length at every call, which
`matchCiteAt_some_length` guarantees suffices. -/
def scanCitationsAux (owner repo sha : Str) (lineCounts : List (Str × Nat)) :
    Nat → Str → Str × List Citation
  | _, [] => ([], [])
  | 0, _ :: _ => ([], [])
  | fuel + 1, c :: cs =>
    match matchCiteAt (c :: cs) with
    | some (pathRaw, startLine, endLine, rest) =>
      let rep := citeReplacement owner repo sha lineCounts pathRaw startLine endLine
      let res := scanCitationsAux owner repo sha lineCounts fuel rest
      (rep.1 ++ res.1,
       match rep.2 with
       | some citation => citation :: res.2
       | none => res.2)
    | none =>
      let res := scanCitationsAux owner repo sha lineCounts fuel cs
      (c :: res.1, res.2)

/-- The markdown scan, with the input's length as sufficient fuel. -/
def scanCitations (owner repo sha : Str) (lineCounts : List (Str × Nat)) (s : Str) :
    Str × List Citation :=
  scanCitationsAux owner repo sha lineCounts s.length s

/-- First-occurrence deduplication of citations keyed by
`(path, startLine, endLine)`, modelling the `seen` set of the parser. -/
def dedupCitations (seen : List (Str × Nat × Nat)) : List Citation → List Citation
  | [] => []
  | c :: cs =>
    if (c.path, c.startLine, c.endLine) ∈ seen then dedupCitations seen cs
    else c :: dedupCitations ((c.path, c.startLine, c.endLine) :: seen) cs

/-- Model of `parseAndLinkCitations`: rewrite every marker occurrence and
return the deduplicated citation list in match order. -/
def parseAndLinkCitations (owner repo sha : Str) (lineCountsByPath : List (Str × Nat))
    (markdown : Str) : Str × List Citation :=
  let r := scanCitations owner repo sha lineCountsByPath markdown
  (r.1, dedupCitations [] r.2)

/-- Whether some marker match of the citation regex starts anywhere in the
input string. -/
def hasCiteMatch : Str → Bool
  | [] => false
  | c :: cs => (matchCiteAt (c :: cs)).isSome || hasCiteMatch cs

/-!
Generic list machinery shared by the pipeline: substring tests, the stable
comparator sort of `Array.prototype.sort`, and `Promise.all` over fallible
per-subsystem computations.
-/

/-- Whether the second string starts the first. -/
def strStartsWith : Str → Str → Bool
  | _, [] => true
  | [], _ :: _ => false
  | c :: cs, d :: ds => c = d && strStartsWith cs ds

/-- Whether `needle` occurs contiguously inside `haystack`, modelling
`String.prototype.includes`. -/
def strContains (haystack needle : Str) : Bool :=
  match haystack with
  | [] => needle = []
  | _ :: tail => strStartsWith haystack needle || strContains tail needle

/-- Lexicographic code-point comparison of strings; models the default-locale
`localeCompare` tie-break on repository paths. -/
def lexLtB : Str → Str → Bool
  | [], [] => false
  | [], _ :: _ => true
  | _ :: _, [] => false
  | a :: as, b :: bs =>
    if a.toNat < b.toNat then true
    else if b.toNat < a.toNat then false
    else lexLtB as bs

/-- Stable insertion of an element into a list: the element goes in front of
the first entry it compares strictly before. -/
def insertBy (lt : α → α → Bool) (x : α) : List α → List α
  | [] => [x]
  | y :: ys => if lt x y then x :: y :: ys else y :: insertBy lt x ys

/-- Stable comparator sort, modelling `Array.prototype.sort` with a
consistent comparator (the ECMAScript sort is specified stable). -/
def stableSortBy (lt : α → α → Bool) : List α → List α
  | [] => []
  | x :: xs => insertBy lt x (stableSortBy lt xs)

/-- Stable machine-readable error codes of `AppError` raised by the pipeline
stages, plus a variant for an uncaught schema (`zod`) parse failure. -/
inductive ErrorCode where
  | EMPTY_FILE_TREE
  | INVALID_SIGNAL_PATHS
  | INVALID_SUBSYSTEM_NAMES
  | EMPTY_EVIDENCE_CONTEXT
  | SCHEMA_PARSE_FAILURE
deriving DecidableEq

/-- Sequencing of the per-subsystem fallible results, modelling `Promise.all`
over the `subsystems.map(...)` fan-out: the first failing entry rejects the
whole batch. -/
def traverseExcept : List (Except ErrorCode α) → Except ErrorCode (List α)
  | [] => .ok []
  | x :: xs =>
    match x with
    | .error e => .error e
    | .ok a =>
      match traverseExcept xs with
      | .error e => .error e
      | .ok as => .ok (a :: as)

/-!
Embedding of `src/lib/ai/pipeline.ts`: data model and the deterministic
validation/scoring logic. Generation-backend outputs are parameters of the
corresponding functions, since every call is followed by independent
validation of the returned value.
-/

/-- The `Subsystem` record of the data model. -/
structure Subsystem where
  id : Str
  name : Str
  description : Str
  userJourney : Str
  relevantPaths : List Str
  entryPoints : List Str
  externalServices : List Str
deriving DecidableEq

/-- The `SubsystemList` generation output. -/
structure SubsystemListOutput where
  productSummary : Str
  subsystems : List Subsystem
deriving DecidableEq

/-- A scored candidate path (`ScoredPath`). -/
structure ScoredPath where
  path : Str
  score : ℚ
deriving DecidableEq

/-- A fetched file (`RepoFileContent`; the byte size plays no role in the
pipeline logic). -/
structure RepoFileContent where
  path : Str
  content : Str
deriving DecidableEq

/-- An `EvidenceItem` as produced by evidence mapping. -/
structure EvidenceItem where
  path : Str
  startLine : Nat
  endLine : Nat
  score : ℚ
  rationale : Str
deriving DecidableEq

/-- A `SubsystemEvidence` grouping the evidence items of one subsystem. -/
structure SubsystemEvidenceOutput where
  subsystemId : Str
  subsystemName : Str
  evidence : List EvidenceItem
deriving DecidableEq

/-- Model of the `FORBIDDEN_SUBSYSTEM_NAMES` list of `prompts.ts`. -/
def FORBIDDEN_SUBSYSTEM_NAMES : List Str :=
  ["frontend".data, "backend".data, "api".data, "utils".data, "shared".data,
   "database".data, "infrastructure".data]

/-- Model of `FORBIDDEN_NAME_SET` (each forbidden name lower-cased). -/
def FORBIDDEN_NAME_SET : List Str :=
  FORBIDDEN_SUBSYSTEM_NAMES.map (fun name => name.map jsToLowerChar)

/-- Model of `hasInvalidSubsystemNames`. -/
def hasInvalidSubsystemNames (output : SubsystemListOutput) : Bool :=
  output.subsystems.any
    (fun subsystem => (jsTrim subsystem.name).map jsToLowerChar ∈ FORBIDDEN_NAME_SET)

/-- Model of `extractSubsystems` as a function of the structured object the
generation backend returned for the extraction prompt: the guardrail is the
only deterministic logic of the stage. -/
def extractSubsystems (parsed : SubsystemListOutput) : Except ErrorCode SubsystemListOutput :=
  if hasInvalidSubsystemNames parsed then .error .INVALID_SUBSYSTEM_NAMES
  else .ok parsed

/-- Maximal alphanumeric runs of a string, collected left to right with an
accumulator holding the reversed current run: the non-empty pieces of the
`split(/[^a-z0-9]+/g)` of `tokenize` (its empty pieces die in the length
filter anyway). -/
def alnumRunsAux (current : Str) : Str → List Str
  | [] => if current = [] then [] else [current.reverse]
  | c :: cs =>
    if isLowerAlnum c then alnumRunsAux (c :: current) cs
    else if current = [] then alnumRunsAux [] cs
    else current.reverse :: alnumRunsAux [] cs

/-- Maximal alphanumeric runs of a string. -/
def alnumRuns (s : Str) : List Str := alnumRunsAux [] s

/-- Model of `tokenize`. -/
def tokenize (input : Str) : List Str :=
  (alnumRuns (input.map jsToLowerChar)).filter (fun token => 3 ≤ token.length)

/-- Model of `buildSubsystemKeywords`: tokenize the join of the subsystem's
descriptive fields (set semantics only ever feed a membership test, so the
keyword set is kept as the token list). -/
def buildSubsystemKeywords (subsystem : Subsystem) : List Str :=
  tokenize (joinWith ' '
    ([subsystem.id, subsystem.name, subsystem.description, subsystem.userJourney] ++
      subsystem.relevantPaths ++ subsystem.entryPoints))

/-- Model of `extensionWeight`: the extension is everything after the last
dot of the whole path (lower-cased), and a path without a dot — or with an
empty last segment — carries weight zero. -/
def extensionWeight (path : Str) : ℚ :=
  let extension :=
    if path.contains '.' then ((splitOnChar '.' path).getLastD []).map jsToLowerChar
    else []
  if extension = [] then 0
  else if extension ∈ ["ts".data, "tsx".data, "js".data, "jsx".data, "py".data,
      "go".data, "rs".data, "java".data, "kt".data, "rb".data, "php".data] then 2
  else if extension ∈ ["md".data, "mdx".data, "yaml".data, "yml".data, "json".data] then (0.5 : ℚ)
  else 1

/-- Whitespace-run collapsing with a flag recording whether the previous
character already belonged to a whitespace run. -/
def collapseWsAux (inRun : Bool) : Str → Str
  | [] => []
  | c :: cs =>
    if jsWhitespace c then
      if inRun then collapseWsAux true cs else '-' :: collapseWsAux true cs
    else c :: collapseWsAux false cs

/-- Model of `name.toLowerCase().replace(/\s+/g, "-")` applied to an already
lower-cased string: each whitespace run collapses to a single hyphen. -/
def collapseWsToHyphen (s : Str) : Str := collapseWsAux false s

/-- Comparator order of the evidence-scorer sort `(a, b) => b.score - a.score
|| a.path.localeCompare(b.path)`: descending score, ties by ascending path. -/
def scoredPathLt (a b : ScoredPath) : Bool :=
  b.score < a.score || (a.score = b.score && lexLtB a.path b.path)

/-- Per-path score accumulation of `scoreSubsystemRelevantPaths`, exactly as
the source's loop body builds it: exact-membership bonuses, `1.4` per keyword
token occurrence, substring bonuses for the id and the hyphenated name, then
the extension weight. -/
def sourcePathScore (subsystem : Subsystem) (keywords : List Str) (path : Str) : ℚ :=
  let normalized := path.map jsToLowerChar
  let pathTokens := tokenize path
  let s1 : ℚ := if path ∈ subsystem.relevantPaths then 0 + 12 else 0
  let s2 := if path ∈ subsystem.entryPoints then s1 + 10 else s1
  let s3 := pathTokens.foldl
    (fun acc token => if token ∈ keywords then acc + (1.4 : ℚ) else acc) s2
  let s4 := if strContains normalized (subsystem.id.map jsToLowerChar) then s3 + 3 else s3
  let s5 := if strContains normalized (collapseWsToHyphen (subsystem.name.map jsToLowerChar))
    then s4 + 2 else s4
  s5 + extensionWeight path

/-- Model of `scoreSubsystemRelevantPaths`, the deterministic evidence
scorer. -/
def scoreSubsystemRelevantPaths (subsystem : Subsystem) (treePaths : List Str)
    (maxFiles : Option Nat) : List ScoredPath :=
  let maxF := maxFiles.getD 8
  let keywords := buildSubsystemKeywords subsystem
  let scored := (treePaths.map (fun path =>
    ScoredPath.mk path (sourcePathScore subsystem keywords path))).filter
    (fun item => 0 < item.score)
  (stableSortBy scoredPathLt scored).take maxF

/-- Closed-formula score of one candidate path as the claims describe it,
except that the extension weight is a parameter so that the claimed and the
actual weighting can be compared. -/
def claimPathScore (subsystem : Subsystem) (extWeight : Str → ℚ) (path : Str) : ℚ :=
  (if path ∈ subsystem.relevantPaths then 12 else 0) +
  (if path ∈ subsystem.entryPoints then 10 else 0) +
  (1.4 : ℚ) * (((tokenize path).countP
    (fun token => token ∈ buildSubsystemKeywords subsystem) : Nat) : ℚ) +
  (if strContains (path.map jsToLowerChar) (subsystem.id.map jsToLowerChar) then 3 else 0) +
  (if strContains (path.map jsToLowerChar)
      (collapseWsToHyphen (subsystem.name.map jsToLowerChar)) then 2 else 0) +
  extWeight path

/-- Extension weight exactly as the claim words it: `2` for source-code
extensions, `0.5` for doc/config extensions, and `1` otherwise — with no
separate case for a path that has no extension at all. -/
def extensionWeightClaimed (path : Str) : ℚ :=
  let extension :=
    if path.contains '.' then ((splitOnChar '.' path).getLastD []).map jsToLowerChar
    else []
  if extension ∈ ["ts".data, "tsx".data, "js".data, "jsx".data, "py".data,
      "go".data, "rs".data, "java".data, "kt".data, "rb".data, "php".data] then 2
  else if extension ∈ ["md".data, "mdx".data, "yaml".data, "yml".data, "json".data] then (0.5 : ℚ)
  else 1

/-- The evidence scorer as the claim describes it, with `extensionWeightClaimed`. -/
def scorePathsClaimed (subsystem : Subsystem) (treePaths : List Str)
    (maxFiles : Option Nat) : List ScoredPath :=
  (stableSortBy scoredPathLt
    ((treePaths.map (fun path =>
      ScoredPath.mk path (claimPathScore subsystem extensionWeightClaimed path))).filter
      (fun item => 0 < item.score))).take (maxFiles.getD 8)

/-- The evidence scorer as a closed formula with the source's extension
weighting (`extensionWeight`, which gives `0` to extensionless paths): the
corrected form of the claimed description. -/
def scorePathsCorrected (subsystem : Subsystem) (treePaths : List Str)
    (maxFiles : Option Nat) : List ScoredPath :=
  (stableSortBy scoredPathLt
    ((treePaths.map (fun path =>
      ScoredPath.mk path (claimPathScore subsystem extensionWeight path))).filter
      (fun item => 0 < item.score))).take (maxFiles.getD 8)

/-- Model of the post-processing of `selectSignalPathsWithAI`'s zod parse
`SignalPathSelectionSchema.parse({paths})`: every string is trimmed by the
schema, and parsing fails when the array is empty or an entry trims to the
empty string. -/
def signalPathSelectionParse (paths : List Str) : Option (List Str) :=
  if paths = [] then none
  else if (paths.map jsTrim).any (fun path => path = []) then none
  else some (paths.map jsTrim)

/-- Model of `selectSignalPathsWithAI` as a function of the cleaned tree
paths and of the path list the generation backend returned. -/
def selectSignalPathsWithAI (treePaths modelPaths : List Str) : Except ErrorCode (List Str) :=
  if treePaths = [] then .error .EMPTY_FILE_TREE
  else
    let deduped := (dedupFirst [] modelPaths).filter (fun path => path ∈ treePaths)
    if deduped = [] then .error .INVALID_SIGNAL_PATHS
    else
      match signalPathSelectionParse deduped with
      | some paths => .ok paths
      | none => .error .SCHEMA_PARSE_FAILURE

/-- Model of the `fileByPath` map lookup (`new Map(files.map(f => [f.path, f]))`,
where a later file with the same path overrides an earlier one). -/
def findLastFile (files : List RepoFileContent) (path : Str) : Option RepoFileContent :=
  files.foldl (fun acc file => if file.path = path then some file else acc) none

/-- Model of `getLineCountByPath` followed by `.get`. -/
def lineCountOfPath (files : List RepoFileContent) (path : Str) : Option Nat :=
  (findLastFile files path).map (fun file => countLines file.content)

/-- Modelled from the spec: `SubsystemEvidenceSchema.parse` — the schema
module itself is not part of the repository snapshot, so its checks are taken
from the spec's data model: each `EvidenceItem` has `startLine > 0`,
`endLine >= startLine`, a `score` in `[0,1]`, and the evidence list has
between 1 and 8 items. `parse` returns the object unchanged on success and
throws on violation. -/
def subsystemEvidenceParse (output : SubsystemEvidenceOutput) : Option SubsystemEvidenceOutput :=
  if output.evidence.length < 1 || 8 < output.evidence.length then none
  else if output.evidence.all (fun item =>
      0 < item.startLine && item.startLine ≤ item.endLine &&
      0 ≤ item.score && item.score ≤ 1) then some output
  else none

/-- Rationale string attached to fallback evidence. -/
def fallbackRationale (path name : Str) : Str :=
  "Fallback evidence selected from ".data ++ path ++ " for ".data ++ name ++ ".".data

/-- Model of `fallbackEvidence`: deterministic low-confidence evidence built
from up to three of the available files, or `EMPTY_EVIDENCE_CONTEXT` when
none is available. -/
def fallbackEvidence (subsystem : Subsystem) (files : List RepoFileContent) :
    Except ErrorCode SubsystemEvidenceOutput :=
  let evidence := (files.take (min 3 files.length)).map (fun file =>
    EvidenceItem.mk file.path 1 (min 40 (countLines file.content)) (0.4 : ℚ)
      (fallbackRationale file.path subsystem.name))
  if evidence = [] then .error .EMPTY_EVIDENCE_CONTEXT
  else
    match subsystemEvidenceParse (SubsystemEvidenceOutput.mk subsystem.id subsystem.name evidence) with
    | some output => .ok output
    | none => .error .SCHEMA_PARSE_FAILURE

/-- The candidate path list of one subsystem inside `mapEvidenceForSubsystems`:
selected scored paths that were actually fetched, capped at
`MAX_FILES_PER_SUBSYSTEM = 8`. -/
def selectedPathsOf (allFiles : List RepoFileContent) (selected : List ScoredPath) : List Str :=
  (((selected.map ScoredPath.path).filter
    (fun path => (findLastFile allFiles path).isSome)).take 8)

/-- The fetched candidate files of one subsystem. -/
def candidateFilesOf (allFiles : List RepoFileContent) (selected : List ScoredPath) :
    List RepoFileContent :=
  (selectedPathsOf allFiles selected).filterMap (findLastFile allFiles)

/-- The validation pipeline applied to the evidence items the generation
backend returned for one subsystem: keep only items whose path is among the
candidates actually shown and whose range fits inside the actually fetched
file,
sort by descending score (stably), cap at
`MAX_EVIDENCE_ITEMS_PER_SUBSYSTEM = 8`. -/
def validatedEvidenceOf (allFiles : List RepoFileContent) (selectedPaths : List Str)
    (modelEvidence : List EvidenceItem) : List EvidenceItem :=
  (stableSortBy (fun x y => y.score < x.score)
    ((modelEvidence.filter (fun item => item.path ∈ selectedPaths)).filter
      (fun item =>
        match lineCountOfPath allFiles item.path with
        | none => false
        | some maxLines =>
          !(maxLines = 0) && 0 < item.startLine && item.startLine ≤ item.endLine &&
            item.endLine ≤ maxLines))).take 8

/-- Model of the per-subsystem body of `mapEvidenceForSubsystems`, as a
function of the evidence object the generation backend returned for this
subsystem. -/
def mapEvidenceForSubsystem (subsystem : Subsystem) (allFiles : List RepoFileContent)
    (selected : List ScoredPath) (modelOutput : SubsystemEvidenceOutput) :
    Except ErrorCode SubsystemEvidenceOutput :=
  let selectedPaths := selectedPathsOf allFiles selected
  let files := candidateFilesOf allFiles selected
  if files = [] then fallbackEvidence subsystem allFiles
  else
    let validated := validatedEvidenceOf allFiles selectedPaths modelOutput.evidence
    if validated = [] then fallbackEvidence subsystem files
    else
      match subsystemEvidenceParse
          (SubsystemEvidenceOutput.mk subsystem.id subsystem.name validated) with
      | some output => .ok output
      | none => .error .SCHEMA_PARSE_FAILURE

/-- Model of `mapEvidenceForSubsystems`: fan out over the subsystems (the
per-subsystem generation result is the parameter `gen`), join on all of them,
and fail the batch on the first failing subsystem. -/
def mapEvidenceForSubsystems (subsystems : List Subsystem) (files : List RepoFileContent)
    (selectedPathsBySubsystem : List (Str × List ScoredPath))
    (gen : Subsystem → SubsystemEvidenceOutput) : Except ErrorCode (List SubsystemEvidenceOutput) :=
  traverseExcept (subsystems.map (fun subsystem =>
    mapEvidenceForSubsystem subsystem files
      ((lookupLast selectedPathsBySubsystem subsystem.id).getD []) (gen subsystem)))

/-!
Shared lemmas about the generic list machinery.
-/

/-- Membership in `dedupFirst`: kept elements are exactly the input elements
not already seen. -/
theorem mem_dedupFirst [DecidableEq α] (l : List α) (seen : List α) (x : α) :
    x ∈ dedupFirst seen l ↔ x ∈ l ∧ x ∉ seen := by
  induction l generalizing seen with
  | nil => simp [dedupFirst]
  | cons y ys ih =>
    unfold dedupFirst
    by_cases hy : y ∈ seen
    · rw [if_pos hy, ih]
      simp only [List.mem_cons]
      constructor
      · rintro ⟨hx, hns⟩
        exact ⟨Or.inr hx, hns⟩
      · rintro ⟨rfl | hx, hns⟩
        · exact absurd hy hns
        · exact ⟨hx, hns⟩
    · rw [if_neg hy]
      simp only [List.mem_cons, ih]
      constructor
      · rintro (rfl | ⟨hx, hns⟩)
        · exact ⟨Or.inl rfl, hy⟩
        · exact ⟨Or.inr hx, fun hc => hns (Or.inr hc)⟩
      · rintro ⟨rfl | hx, hns⟩
        · exact Or.inl rfl
        · by_cases hxy : x = y
          · exact Or.inl hxy
          · exact Or.inr ⟨hx, fun hc => hc.elim hxy hns⟩

/-- The output of `dedupFirst` has no duplicates. -/
theorem dedupFirst_nodup [DecidableEq α] (l seen : List α) : (dedupFirst seen l).Nodup := by
  induction l generalizing seen with
  | nil => simp [dedupFirst]
  | cons y ys ih =>
    unfold dedupFirst
    by_cases hy : y ∈ seen
    · simp [hy, ih]
    · simp only [hy, if_false, List.nodup_cons]
      refine ⟨fun hc => ?_, ih _⟩
      exact ((mem_dedupFirst ys (y :: seen) y).1 hc).2 (List.mem_cons_self y seen)

/-- `dedupFirst` is the identity on duplicate-free lists disjoint from the
seen accumulator. -/
theorem dedupFirst_eq_self [DecidableEq α] {l seen : List α}
    (hs : ∀ x ∈ l, x ∉ seen) (hn : l.Nodup) : dedupFirst seen l = l := by
  induction l generalizing seen with
  | nil => simp [dedupFirst]
  | cons y ys ih =>
    unfold dedupFirst
    rw [if_neg (hs y (List.mem_cons_self y ys))]
    rw [ih (fun x hx => ?_) (List.Nodup.of_cons hn)]
    intro hc
    rcases List.mem_cons.1 hc with rfl | hcs
    · exact (List.nodup_cons.1 hn).1 hx
    · exact hs x (List.mem_cons_of_mem y hx) hcs

/-- Mapping a function that fixes every element of a list is the identity. -/
theorem mapIdOn {l : List α} {f : α → α} (h : ∀ x ∈ l, f x = x) : l.map f = l := by
  induction l with
  | nil => rfl
  | cons y ys ih =>
    simp only [List.map_cons, h y (List.mem_cons_self y ys)]
    rw [ih (fun x hx => h x (List.mem_cons_of_mem y hx))]

/-!
Claim C6 — the path filter and idempotence.
-/

/-- C6 counterexample: `cleanTreePaths` deduplicates before trimming, so two
distinct raw paths that trim to the same path survive as duplicates, and a
second application removes one of them: the filter is not idempotent. -/
theorem cleanTreePaths_not_idempotent :
    cleanTreePaths (cleanTreePaths [" a".data, "a".data]) ≠
      cleanTreePaths [" a".data, "a".data] := by decide

/-- C6 (amended): on path lists whose entries carry no surrounding
whitespace (so that trimming fixes them — in particular on any raw GitHub
tree listing), `cleanTreePaths` is idempotent. -/
theorem cleanTreePaths_idempotent_of_trimmed (paths : List Str)
    (h : ∀ path ∈ paths, jsTrim path = path) :
    cleanTreePaths (cleanTreePaths paths) = cleanTreePaths paths := by
  have hdedup_mem : ∀ x ∈ dedupFirst ([] : List Str) paths, x ∈ paths := by
    intro x hx
    exact ((mem_dedupFirst paths [] x).1 hx).1
  have hmap : (dedupFirst ([] : List Str) paths).map jsTrim = dedupFirst [] paths :=
    mapIdOn (fun x hx => h x (hdedup_mem x hx))
  have hq : cleanTreePaths paths =
      ((dedupFirst ([] : List Str) paths).filter (fun path => 0 < path.length)).filter
        shouldIncludePath := by
    unfold cleanTreePaths
    rw [hmap]
  set q := ((dedupFirst ([] : List Str) paths).filter (fun path => 0 < path.length)).filter
    shouldIncludePath with hqdef
  have hq_nodup : q.Nodup :=
    List.Nodup.filter _ (List.Nodup.filter _ (dedupFirst_nodup paths []))
  have hq_sub : ∀ x ∈ q, x ∈ paths := by
    intro x hx
    exact hdedup_mem x (List.mem_of_mem_filter (List.mem_of_mem_filter hx))
  have hq_len : ∀ x ∈ q, 0 < x.length := by
    intro x hx
    have := List.of_mem_filter (List.mem_of_mem_filter hx)
    simpa using this
  have hq_inc : ∀ x ∈ q, shouldIncludePath x = true := by
    intro x hx
    exact List.of_mem_filter hx
  have h1 : List.filter (fun path => decide (0 < List.length path)) q = q :=
    List.filter_eq_self.mpr (fun x hx => by simpa using hq_len x hx)
  have h2 : List.filter shouldIncludePath q = q := List.filter_eq_self.mpr hq_inc
  rw [hq]
  unfold cleanTreePaths
  rw [dedupFirst_eq_self (by simp) hq_nodup,
    mapIdOn (fun x hx => h x (hq_sub x hx)), h1, h2]

/-- Witness for the amended C6 theorem at a concrete trimmed path list. -/
theorem cleanTreePaths_idempotent_witness :
    (∀ path ∈ ["a.ts".data, "b/c.ts".data, "a.ts".data, "node_modules/x.js".data],
      jsTrim path = path) ∧
    cleanTreePaths (cleanTreePaths
      ["a.ts".data, "b/c.ts".data, "a.ts".data, "node_modules/x.js".data]) =
      cleanTreePaths ["a.ts".data, "b/c.ts".data, "a.ts".data, "node_modules/x.js".data] :=
  ⟨by decide, cleanTreePaths_idempotent_of_trimmed _ (by decide)⟩

/-!
Claim C7 — the forbidden-subsystem-name gate of `extractSubsystems`.
-/

/-- C7: extraction fails with `INVALID_SUBSYSTEM_NAMES` exactly when some
generated subsystem's name, trimmed and lower-cased, lies in the forbidden
technical-layer name set; otherwise the generated list is returned whole.
No partial acceptance happens in either case. -/
theorem extractSubsystems_forbidden_name_gate (parsed : SubsystemListOutput) :
    ((∃ subsystem ∈ parsed.subsystems,
        (jsTrim subsystem.name).map jsToLowerChar ∈ FORBIDDEN_NAME_SET) →
      extractSubsystems parsed = .error .INVALID_SUBSYSTEM_NAMES) ∧
    ((∀ subsystem ∈ parsed.subsystems,
        (jsTrim subsystem.name).map jsToLowerChar ∉ FORBIDDEN_NAME_SET) →
      extractSubsystems parsed = .ok parsed) := by
  constructor
  · rintro ⟨subsystem, hmem, hforb⟩
    have hbad : hasInvalidSubsystemNames parsed = true := by
      unfold hasInvalidSubsystemNames
      rw [List.any_eq_true]
      exact ⟨subsystem, hmem, by simpa using hforb⟩
    unfold extractSubsystems
    rw [if_pos hbad]
  · intro hok
    have hgood : hasInvalidSubsystemNames parsed = false := by
      unfold hasInvalidSubsystemNames
      rw [List.any_eq_false]
      intro subsystem hmem
      simpa using hok subsystem hmem
    unfold extractSubsystems
    rw [if_neg (by simp [hgood])]

/-- Witness for C7: a list containing a subsystem named `" API "` (forbidden
after trimming and lower-casing) fails whole, however many valid names it
also contains, and the same list with the offender renamed passes. -/
theorem extractSubsystems_forbidden_name_witness :
    extractSubsystems (SubsystemListOutput.mk "sums".data
      [Subsystem.mk "checkout".data "Checkout Flow".data [] [] [] [] [],
       Subsystem.mk "gw".data " API ".data [] [] [] [] [],
       Subsystem.mk "search".data "Product Search".data [] [] [] [] []]) =
      .error .INVALID_SUBSYSTEM_NAMES ∧
    extractSubsystems (SubsystemListOutput.mk "sums".data
      [Subsystem.mk "checkout".data "Checkout Flow".data [] [] [] [] [],
       Subsystem.mk "search".data "Product Search".data [] [] [] [] []]) =
      .ok (SubsystemListOutput.mk "sums".data
      [Subsystem.mk "checkout".data "Checkout Flow".data [] [] [] [] [],
       Subsystem.mk "search".data "Product Search".data [] [] [] [] []]) :=
  ⟨(extractSubsystems_forbidden_name_gate _).1
      ⟨Subsystem.mk "gw".data " API ".data [] [] [] [] [], by decide, by decide⟩,
    (extractSubsystems_forbidden_name_gate _).2 (by decide)⟩

/-!
Claim C9 — signal path selection.
-/

/-- C9: on a cleaned tree-path list (entries trimmed and non-empty, as
`cleanTreePaths` produces), `selectSignalPathsWithAI` fails with
`EMPTY_FILE_TREE` when the cleaned list is empty; otherwise it deduplicates
the model-returned paths, intersects them with the cleaned set, fails with
`INVALID_SIGNAL_PATHS` exactly when that intersection is empty, and otherwise
returns the intersection, whose members all belong to the cleaned set and
appear at most once. -/
theorem selectSignalPathsWithAI_spec (treePaths modelPaths : List Str)
    (hclean : ∀ path ∈ treePaths, jsTrim path = path ∧ path ≠ []) :
    (treePaths = [] →
      selectSignalPathsWithAI treePaths modelPaths = .error .EMPTY_FILE_TREE) ∧
    (treePaths ≠ [] →
      ((dedupFirst [] modelPaths).filter (fun path => path ∈ treePaths) = [] →
        selectSignalPathsWithAI treePaths modelPaths = .error .INVALID_SIGNAL_PATHS) ∧
      ((dedupFirst [] modelPaths).filter (fun path => path ∈ treePaths) ≠ [] →
        selectSignalPathsWithAI treePaths modelPaths =
          .ok ((dedupFirst [] modelPaths).filter (fun path => path ∈ treePaths)) ∧
        ((dedupFirst [] modelPaths).filter (fun path => path ∈ treePaths)).Nodup ∧
        ∀ path ∈ (dedupFirst [] modelPaths).filter (fun path => path ∈ treePaths),
          path ∈ treePaths)) := by
  constructor
  · intro hempty
    unfold selectSignalPathsWithAI
    rw [if_pos hempty]
  · intro hne
    have hmem : ∀ path ∈ (dedupFirst [] modelPaths).filter (fun path => path ∈ treePaths),
        path ∈ treePaths := by
      intro path hp
      have := List.of_mem_filter hp
      simpa using this
    constructor
    · intro hint
      unfold selectSignalPathsWithAI
      rw [if_neg hne, if_pos hint]
    · intro hint
      refine ⟨?_, List.Nodup.filter _ (dedupFirst_nodup modelPaths []), hmem⟩
      unfold selectSignalPathsWithAI
      rw [if_neg hne, if_neg hint]
      have htrim : ((dedupFirst [] modelPaths).filter
          (fun path => path ∈ treePaths)).map jsTrim =
          (dedupFirst [] modelPaths).filter (fun path => path ∈ treePaths) :=
        mapIdOn (fun path hp => (hclean path (hmem path hp)).1)
      have hparse : signalPathSelectionParse
          ((dedupFirst [] modelPaths).filter (fun path => path ∈ treePaths)) =
          some ((dedupFirst [] modelPaths).filter (fun path => path ∈ treePaths)) := by
        unfold signalPathSelectionParse
        rw [if_neg hint, htrim]
        rw [if_neg ?_]
        rw [List.any_eq_true]
        rintro ⟨path, hp, hnil⟩
        exact (hclean path (hmem path hp)).2 (by simpa using hnil)
      rw [hparse]

/-- Witness for C9: duplicates collapse and a hallucinated path is dropped. -/
theorem selectSignalPathsWithAI_witness :
    selectSignalPathsWithAI ["a.ts".data, "b.ts".data]
      ["b.ts".data, "zzz".data, "b.ts".data] = .ok ["b.ts".data] :=
  ((selectSignalPathsWithAI_spec ["a.ts".data, "b.ts".data]
    ["b.ts".data, "zzz".data, "b.ts".data] (by decide)).2 (by decide)).2 (by decide) |>.1

/-!
Claim C5 — the evidence scorer.
-/

/-- Folding a constant bonus over the elements satisfying a predicate adds
the bonus once per satisfying occurrence. -/
theorem foldlAddIf (c : ℚ) (pred : Str → Prop) [DecidablePred pred] (l : List Str) (init : ℚ) :
    l.foldl (fun acc t => if pred t then acc + c else acc) init =
      init + c * ((l.countP (fun t => pred t) : Nat) : ℚ) := by
  induction l generalizing init with
  | nil => simp
  | cons x xs ih =>
    rw [List.foldl_cons, List.countP_cons]
    by_cases hx : pred x
    · rw [if_pos hx, ih]
      simp [hx]
      ring
    · rw [if_neg hx, ih]
      simp [hx]

/-- The sequentially accumulated source score equals the closed-formula
score with the source's extension weighting. -/
theorem sourcePathScore_eq_claim (subsystem : Subsystem) (path : Str) :
    sourcePathScore subsystem (buildSubsystemKeywords subsystem) path =
      claimPathScore subsystem extensionWeight path := by
  unfold sourcePathScore claimPathScore
  simp only
  rw [foldlAddIf (1.4 : ℚ) (fun token => token ∈ buildSubsystemKeywords subsystem)]
  by_cases h1 : path ∈ subsystem.relevantPaths <;>
    by_cases h2 : path ∈ subsystem.entryPoints <;>
      by_cases h4 : strContains (path.map jsToLowerChar)
        (subsystem.id.map jsToLowerChar) = true <;>
        by_cases h5 : strContains (path.map jsToLowerChar)
          (collapseWsToHyphen (subsystem.name.map jsToLowerChar)) = true <;>
          simp only [h1, h2, h4, h5, if_true, if_false, Bool.false_eq_true] <;> ring

/-- C5 (amended refinement): the source scorer agrees everywhere with the
closed-formula description once the extension weight of an extensionless
path is `0` rather than the claimed `1`. -/
theorem scoreSubsystemRelevantPaths_eq_corrected (subsystem : Subsystem)
    (treePaths : List Str) (maxFiles : Option Nat) :
    scoreSubsystemRelevantPaths subsystem treePaths maxFiles =
      scorePathsCorrected subsystem treePaths maxFiles := by
  have hfun : (fun path => ScoredPath.mk path
      (sourcePathScore subsystem (buildSubsystemKeywords subsystem) path)) =
      (fun path => ScoredPath.mk path (claimPathScore subsystem extensionWeight path)) :=
    funext (fun path => by rw [sourcePathScore_eq_claim])
  simp only [scoreSubsystemRelevantPaths, scorePathsCorrected]
  rw [hfun]

/-- C5 counterexample: a path without any extension (here `Makefile`) gets
extension weight `0` in the source, not the claimed `1`, so the source drops
it at zero score while the claimed scorer keeps it with score `1`. -/
theorem scorePaths_claim_counterexample :
    scoreSubsystemRelevantPaths
      (Subsystem.mk "pay".data "Payments".data "handles checkout payments".data
        "user pays for a cart at checkout time".data ["x".data] ["x".data] [])
      ["Makefile".data] none = [] ∧
    scorePathsClaimed
      (Subsystem.mk "pay".data "Payments".data "handles checkout payments".data
        "user pays for a cart at checkout time".data ["x".data] ["x".data] [])
      ["Makefile".data] none = [ScoredPath.mk "Makefile".data 1] ∧
    scoreSubsystemRelevantPaths
      (Subsystem.mk "pay".data "Payments".data "handles checkout payments".data
        "user pays for a cart at checkout time".data ["x".data] ["x".data] [])
      ["Makefile".data] none ≠
    scorePathsClaimed
      (Subsystem.mk "pay".data "Payments".data "handles checkout payments".data
        "user pays for a cart at checkout time".data ["x".data] ["x".data] [])
      ["Makefile".data] none := by
  have hsrc : sourcePathScore
      (Subsystem.mk "pay".data "Payments".data "handles checkout payments".data
        "user pays for a cart at checkout time".data ["x".data] ["x".data] [])
      (buildSubsystemKeywords (Subsystem.mk "pay".data "Payments".data
        "handles checkout payments".data
        "user pays for a cart at checkout time".data ["x".data] ["x".data] []))
      "Makefile".data = 0 := by
    rw [sourcePathScore_eq_claim]
    unfold claimPathScore
    rw [if_neg (by decide), if_neg (by decide), if_neg (by decide), if_neg (by decide)]
    have hext : extensionWeight "Makefile".data = 0 := by
      simp [extensionWeight, show ("Makefile".data.contains '.') = false from by decide]
    have hcount : ((tokenize "Makefile".data).countP (fun token =>
        token ∈ buildSubsystemKeywords (Subsystem.mk "pay".data "Payments".data
          "handles checkout payments".data
          "user pays for a cart at checkout time".data ["x".data] ["x".data] [])) : Nat)
        = 0 := by decide
    rw [hcount, hext]
    norm_num
  have hclaim : claimPathScore
      (Subsystem.mk "pay".data "Payments".data "handles checkout payments".data
        "user pays for a cart at checkout time".data ["x".data] ["x".data] [])
      extensionWeightClaimed "Makefile".data = 1 := by
    unfold claimPathScore
    rw [if_neg (by decide), if_neg (by decide), if_neg (by decide), if_neg (by decide)]
    have hext : extensionWeightClaimed "Makefile".data = 1 := by
      simp [extensionWeightClaimed,
        show ("Makefile".data.contains '.') = false from by decide,
        show ¬(([] : Str) ∈ ["ts".data, "tsx".data, "js".data, "jsx".data, "py".data,
          "go".data, "rs".data, "java".data, "kt".data, "rb".data, "php".data]) from by decide,
        show ¬(([] : Str) ∈ ["md".data, "mdx".data, "yaml".data, "yml".data, "json".data])
          from by decide]
    have hcount : ((tokenize "Makefile".data).countP (fun token =>
        token ∈ buildSubsystemKeywords (Subsystem.mk "pay".data "Payments".data
          "handles checkout payments".data
          "user pays for a cart at checkout time".data ["x".data] ["x".data] [])) : Nat)
        = 0 := by decide
    rw [hcount, hext]
    norm_num
  have hA : scoreSubsystemRelevantPaths
      (Subsystem.mk "pay".data "Payments".data "handles checkout payments".data
        "user pays for a cart at checkout time".data ["x".data] ["x".data] [])
      ["Makefile".data] none = [] := by
    simp only [scoreSubsystemRelevantPaths, List.map_cons, List.map_nil]
    rw [hsrc, List.filter_cons]
    rw [if_neg (by simp)]
    simp [stableSortBy]
  have hB : scorePathsClaimed
      (Subsystem.mk "pay".data "Payments".data "handles checkout payments".data
        "user pays for a cart at checkout time".data ["x".data] ["x".data] [])
      ["Makefile".data] none = [ScoredPath.mk "Makefile".data 1] := by
    simp only [scorePathsClaimed, List.map_cons, List.map_nil]
    rw [hclaim, List.filter_cons]
    rw [if_pos (by norm_num)]
    simp [stableSortBy, insertBy]
  exact ⟨hA, hB, by rw [hA, hB]; simp⟩

/-!
Claim C4 — the numbered context window.  Supporting lemmas about splitting,
joining and digit strings.
-/

/-- Splitting never returns the empty list of pieces. -/
theorem splitOnChar_ne_nil (sep : Char) (s : Str) : splitOnChar sep s ≠ [] := by
  cases s with
  | nil => simp [splitOnChar]
  | cons c cs =>
    unfold splitOnChar
    by_cases hc : c = sep
    · simp [hc]
    · cases h : splitOnChar sep cs <;> simp [hc, h]

/-- No piece of a split contains the separator. -/
theorem not_mem_splitOnChar (sep : Char) (s : Str) :
    ∀ piece ∈ splitOnChar sep s, sep ∉ piece := by
  induction s with
  | nil =>
    intro piece hp
    simp [splitOnChar] at hp
    simp [hp]
  | cons c cs ih =>
    intro piece hp
    unfold splitOnChar at hp
    by_cases hc : c = sep
    · rw [if_pos hc] at hp
      rcases List.mem_cons.1 hp with rfl | hmem
      · simp
      · exact ih piece hmem
    · rw [if_neg hc] at hp
      cases h : splitOnChar sep cs with
      | nil => exact absurd h (splitOnChar_ne_nil sep cs)
      | cons piece0 pieces =>
        rw [h] at hp
        rcases List.mem_cons.1 hp with rfl | hmem
        · intro hmem2
          rcases List.mem_cons.1 hmem2 with rfl | hmem3
          · exact hc rfl
          · exact ih piece0 (h ▸ List.mem_cons_self piece0 pieces) hmem3
        · exact ih piece (h ▸ List.mem_cons_of_mem piece0 hmem)

/-- Splitting a separator-free string yields that string as the one piece. -/
theorem splitOnChar_no_sep (sep : Char) (l : Str) (hl : sep ∉ l) :
    splitOnChar sep l = [l] := by
  induction l with
  | nil => simp [splitOnChar]
  | cons c cs ih =>
    have hc : ¬c = sep := fun h => hl (h ▸ List.mem_cons_self c cs)
    unfold splitOnChar
    rw [if_neg hc, ih (fun h => hl (List.mem_cons_of_mem c h))]

/-- Splitting a string of the form `piece ++ sep ++ rest` peels the piece. -/
theorem splitOnChar_append_sep (sep : Char) (l t : Str) (hl : sep ∉ l) :
    splitOnChar sep (l ++ sep :: t) = l :: splitOnChar sep t := by
  induction l with
  | nil => simp [splitOnChar]
  | cons c cs ih =>
    have hc : ¬c = sep := fun h => hl (h ▸ List.mem_cons_self c cs)
    simp only [List.cons_append]
    conv_lhs => rw [splitOnChar]
    rw [if_neg hc, ih (fun h => hl (List.mem_cons_of_mem c h))]

/-- Splitting is a left inverse of joining on separator-free pieces. -/
theorem splitOnChar_joinWith (sep : Char) (ls : List Str)
    (h : ∀ l ∈ ls, sep ∉ l) (hne : ls ≠ []) :
    splitOnChar sep (joinWith sep ls) = ls := by
  induction ls with
  | nil => exact absurd rfl hne
  | cons l ls ih =>
    cases ls with
    | nil =>
      unfold joinWith
      exact splitOnChar_no_sep sep l (h l (List.mem_cons_self l []))
    | cons l2 ls2 =>
      unfold joinWith
      rw [splitOnChar_append_sep sep l _ (h l (List.mem_cons_self l (l2 :: ls2)))]
      rw [ih (fun x hx => h x (List.mem_cons_of_mem l hx)) (by simp)]

/-- Counting the lines of a join of newline-free lines gives their number. -/
theorem countLines_joinWith (ls : List Str) (h : ∀ l ∈ ls, '\n' ∉ l) (hne : ls ≠ []) :
    countLines (joinWith '\n' ls) = ls.length := by
  unfold countLines
  rw [splitOnChar_joinWith '\n' ls h hne]

/-- Digit characters produced by `digitChar10` satisfy the digit class. -/
theorem isDigitChar_digitChar10 (n : Nat) : isDigitChar (digitChar10 n) = true := by
  unfold digitChar10
  split <;> decide

/-- Every character of `natDigitsRevAux` is a digit. -/
theorem natDigitsRevAux_digits (fuel : Nat) :
    ∀ n, ∀ c ∈ natDigitsRevAux fuel n, isDigitChar c = true := by
  induction fuel with
  | zero =>
    intro n c hc
    cases n <;> simp [natDigitsRevAux] at hc
  | succ fuel ih =>
    intro n c hc
    cases n with
    | zero => simp [natDigitsRevAux] at hc
    | succ m =>
      unfold natDigitsRevAux at hc
      rcases List.mem_cons.1 hc with rfl | hmem
      · exact isDigitChar_digitChar10 _
      · exact ih _ c hmem

/-- Every character of a rendered number is a digit. -/
theorem natToStr_all_digits (n : Nat) : ∀ c ∈ natToStr n, isDigitChar c = true := by
  unfold natToStr
  split
  · intro c hc
    simp at hc
    simp [hc]
    decide
  · intro c hc
    exact natDigitsRevAux_digits n n c (List.mem_reverse.1 hc)

/-- A rendered number is never the empty string. -/
theorem natToStr_ne_nil (n : Nat) : natToStr n ≠ [] := by
  unfold natToStr
  split
  · simp
  · rename_i hn
    cases n with
    | zero => exact absurd rfl hn
    | succ m => simp [natDigitsRev, natDigitsRevAux]

/-- Bounds extracted from the digit class. -/
theorem isDigitChar_toNat {c : Char} (h : isDigitChar c = true) :
    48 ≤ c.toNat ∧ c.toNat ≤ 57 := by
  simpa [isDigitChar] using h

/-- Digit characters are not the newline character. -/
theorem digit_ne_newline {c : Char} (h : isDigitChar c = true) : c ≠ '\n' := by
  obtain ⟨h1, h2⟩ := isDigitChar_toNat h
  rintro rfl
  have : ('\n').toNat = 10 := by decide
  omega

/-- A numbered line contains no newline when its payload line contains none. -/
theorem newline_not_mem_format (k : Nat) (line : Str) (hline : '\n' ∉ line) :
    '\n' ∉ formatNumberedLine k line := by
  unfold formatNumberedLine
  intro hmem
  rcases List.mem_append.1 hmem with h | h
  · rcases List.mem_append.1 h with h1 | h1
    · exact absurd (List.eq_of_mem_replicate h1) (by decide)
    · exact digit_ne_newline (natToStr_all_digits k _ h1) rfl
  · rcases List.mem_cons.1 h with h3 | h3
    · exact absurd h3 (by decide)
    · rcases List.mem_cons.1 h3 with h4 | h4
      · exact absurd h4 (by decide)
      · rcases List.mem_cons.1 h4 with h5 | h5
        · exact absurd h5 (by decide)
        · exact hline h5

/-- The omission marker contains no newline. -/
theorem newline_not_mem_omissionMarker (k : Nat) : '\n' ∉ omissionMarker k := by
  unfold omissionMarker
  intro hmem
  rcases List.mem_append.1 hmem with h | h
  · rcases List.mem_append.1 h with h1 | h1
    · exact absurd h1 (by decide)
    · exact digit_ne_newline (natToStr_all_digits k _ h1) rfl
  · exact absurd h (by decide)

/-- Numbering preserves the number of lines. -/
theorem numberLinesFrom_length (k : Nat) (ls : List Str) :
    (numberLinesFrom k ls).length = ls.length := by
  induction ls generalizing k with
  | nil => rfl
  | cons l ls ih => simp [numberLinesFrom, ih]

/-- Numbered newline-free lines stay newline-free. -/
theorem newline_not_mem_numberLinesFrom (k : Nat) (ls : List Str)
    (h : ∀ l ∈ ls, '\n' ∉ l) :
    ∀ x ∈ numberLinesFrom k ls, '\n' ∉ x := by
  induction ls generalizing k with
  | nil => intro x hx; simp [numberLinesFrom] at hx
  | cons l ls ih =>
    intro x hx
    unfold numberLinesFrom at hx
    rcases List.mem_cons.1 hx with rfl | hmem
    · exact newline_not_mem_format k l (h l (List.mem_cons_self l ls))
    · exact ih (k + 1) (fun y hy => h y (List.mem_cons_of_mem l hy)) x hmem

/-- C4: on any text with more lines than `maxLines` and a window
configuration whose head and tail budgets fit inside `maxLines` (the
pipeline always calls with 150 + 60 ≤ 220), the windowed output is the first
`headLines` source lines numbered from 1, one omission marker stating
exactly `N - headLines - tailLines` omitted lines, and the last `tailLines`
source lines numbered with their true absolute numbers starting at
`N - tailLines + 1`; the output has exactly `headLines + tailLines + 1`
lines and the head range ends strictly before the tail range starts. -/
theorem buildNumberedContextWindow_spec (content : Str) (maxLines headLines tailLines : Nat)
    (hcap : headLines + tailLines ≤ maxLines)
    (hover : maxLines < countLines content) :
    buildNumberedContextWindow content maxLines headLines tailLines =
      joinWith '\n'
        (numberLinesFrom 1 ((splitOnChar '\n' content).take headLines) ++
          omissionMarker (countLines content - headLines - tailLines) ::
          numberLinesFrom (countLines content - tailLines + 1)
            ((splitOnChar '\n' content).drop (countLines content - tailLines))) ∧
    countLines (buildNumberedContextWindow content maxLines headLines tailLines) =
      headLines + tailLines + 1 ∧
    headLines < countLines content - tailLines + 1 := by
  have hN : countLines content = (splitOnChar '\n' content).length := rfl
  have hout : buildNumberedContextWindow content maxLines headLines tailLines =
      joinWith '\n'
        (numberLinesFrom 1 ((splitOnChar '\n' content).take headLines) ++
          omissionMarker (countLines content - headLines - tailLines) ::
          numberLinesFrom (countLines content - tailLines + 1)
            ((splitOnChar '\n' content).drop (countLines content - tailLines))) := by
    unfold buildNumberedContextWindow
    rw [if_neg (by omega)]
    dsimp only
    have h1 : min headLines (splitOnChar '\n' content).length = headLines := by omega
    have h2 : max ((splitOnChar '\n' content).length - tailLines + 1) (headLines + 1) =
        (splitOnChar '\n' content).length - tailLines + 1 := by omega
    rw [h1, h2]
    have h3 : (splitOnChar '\n' content).length - tailLines + 1 - 1 =
        countLines content - tailLines := by omega
    have h4 : (splitOnChar '\n' content).length - tailLines + 1 - headLines - 1 =
        countLines content - headLines - tailLines := by omega
    rw [h3, h4, ← hN]
  refine ⟨hout, ?_, by omega⟩
  rw [hout]
  have hpieces := not_mem_splitOnChar '\n' content
  have hall : ∀ x ∈ (numberLinesFrom 1 ((splitOnChar '\n' content).take headLines) ++
      omissionMarker (countLines content - headLines - tailLines) ::
      numberLinesFrom (countLines content - tailLines + 1)
        ((splitOnChar '\n' content).drop (countLines content - tailLines))),
      '\n' ∉ x := by
    intro x hx
    rcases List.mem_append.1 hx with h | h
    · exact newline_not_mem_numberLinesFrom 1 _
        (fun l hl => hpieces l (List.mem_of_mem_take hl)) x h
    · rcases List.mem_cons.1 h with rfl | h2
      · exact newline_not_mem_omissionMarker _
      · exact newline_not_mem_numberLinesFrom _ _
          (fun l hl => hpieces l (List.mem_of_mem_drop hl)) x h2
  rw [countLines_joinWith _ hall (by simp)]
  rw [List.length_append, numberLinesFrom_length, List.length_cons, numberLinesFrom_length,
    List.length_take, List.length_drop]
  omega

/-- Witness for C4 at a ten-line text windowed with budgets 3 + 2 ≤ 5 < 10. -/
theorem buildNumberedContextWindow_witness :
    (3 + 2 ≤ 5 ∧ 5 < countLines "a\nb\nc\nd\ne\nf\ng\nh\ni\nj".data) ∧
    countLines (buildNumberedContextWindow "a\nb\nc\nd\ne\nf\ng\nh\ni\nj".data 5 3 2) =
      3 + 2 + 1 :=
  ⟨⟨by decide, by decide⟩,
    (buildNumberedContextWindow_spec "a\nb\nc\nd\ne\nf\ng\nh\ni\nj".data 5 3 2
      (by decide) (by decide)).2.1⟩

/-!
Claims C2, C3, C10 — the citation parser.  Supporting lemmas: digit
round-trips, marker matching, and the behaviour of the scan.
-/

/-- Value of a digit character produced by `digitChar10`. -/
theorem digitChar10_val (n : Nat) : (digitChar10 n).toNat - 48 = n % 10 := by
  unfold digitChar10
  rcases (show n % 10 = 0 ∨ n % 10 = 1 ∨ n % 10 = 2 ∨ n % 10 = 3 ∨ n % 10 = 4 ∨
      n % 10 = 5 ∨ n % 10 = 6 ∨ n % 10 = 7 ∨ n % 10 = 8 ∨ n % 10 = 9 by omega) with
    h | h | h | h | h | h | h | h | h | h <;> rw [h] <;> decide

/-- Appending a digit multiplies the value by ten and adds the digit. -/
theorem digitsToNat_append (s : Str) (c : Char) :
    digitsToNat (s ++ [c]) = 10 * digitsToNat s + (c.toNat - 48) := by
  simp [digitsToNat, List.foldl_append]

/-- The fuel-indexed digit rendering parses back to its value. -/
theorem digitsToNat_natDigitsRevAux (fuel : Nat) :
    ∀ n, n ≤ fuel → digitsToNat ((natDigitsRevAux fuel n).reverse) = n := by
  induction fuel with
  | zero =>
    intro n hn
    have : n = 0 := by omega
    subst this
    simp [natDigitsRevAux, digitsToNat]
  | succ fuel ih =>
    intro n hn
    cases n with
    | zero => simp [natDigitsRevAux, digitsToNat]
    | succ m =>
      have hdiv : (m + 1) / 10 ≤ fuel := by
        have := Nat.div_lt_self (show 0 < m + 1 by omega) (show 1 < 10 by omega)
        omega
      show digitsToNat ((digitChar10 ((m + 1) % 10) ::
        natDigitsRevAux fuel ((m + 1) / 10)).reverse) = m + 1
      rw [List.reverse_cons, digitsToNat_append, ih _ hdiv, digitChar10_val]
      omega

/-- Parsing the decimal rendering returns the original number
(`parseInt` inverts `toString`). -/
theorem digitsToNat_natToStr (n : Nat) : digitsToNat (natToStr n) = n := by
  unfold natToStr
  split
  · rename_i h
    rw [h]
    decide
  · exact digitsToNat_natDigitsRevAux n n (Nat.le_refl n)

/-- `takeWhile` passes over a fully satisfying prefix. -/
theorem takeWhileAppendAll {p : Char → Bool} {l1 : Str} (l2 : Str)
    (h : ∀ c ∈ l1, p c = true) :
    (l1 ++ l2).takeWhile p = l1 ++ l2.takeWhile p := by
  induction l1 with
  | nil => simp
  | cons c cs ih =>
    rw [List.cons_append, List.takeWhile_cons, if_pos (h c (List.mem_cons_self c cs))]
    rw [ih (fun x hx => h x (List.mem_cons_of_mem c hx)), List.cons_append]

/-- `dropWhile` consumes a fully satisfying prefix. -/
theorem dropWhileAppendAll {p : Char → Bool} {l1 : Str} (l2 : Str)
    (h : ∀ c ∈ l1, p c = true) :
    (l1 ++ l2).dropWhile p = l2.dropWhile p := by
  induction l1 with
  | nil => simp
  | cons c cs ih =>
    rw [List.cons_append, List.dropWhile_cons, if_pos (h c (List.mem_cons_self c cs))]
    exact ih (fun x hx => h x (List.mem_cons_of_mem c hx))

/-- A marker match can only start at an opening bracket. -/
theorem matchCiteAt_cons_of_ne {c : Char} {cs : Str} (hc : c ≠ '[') :
    matchCiteAt (c :: cs) = none := by
  unfold matchCiteAt
  split
  · rename_i heq
    injection heq with h1 _
    exact absurd h1 hc
  · rfl

/-- The marker matcher succeeds on a well-formed marker followed by
anything: the path capture is exactly the marker's path and the numbers
parse back to the marker's numbers. -/
theorem matchCiteAt_marker (p : Str) (a b : Nat) (post : Str)
    (hp : p ≠ []) (hpc : ∀ c ∈ p, isPathChar c = true) :
    matchCiteAt (citeMarker p a b ++ post) = some (p, a, b, post) := by
  have hshape : citeMarker p a b ++ post =
      '[' :: '[' :: 'c' :: 'i' :: 't' :: 'e' :: ':' ::
        (p ++ ':' :: (natToStr a ++ '-' :: (natToStr b ++ ']' :: ']' :: post))) := by
    simp [citeMarker]
  rw [hshape]
  have hdig : ∀ n : Nat, ∀ c ∈ natToStr n, isDigitChar c = true := natToStr_all_digits
  have htk1 : (p ++ ':' :: (natToStr a ++ '-' :: (natToStr b ++ ']' :: ']' :: post))).takeWhile
      isPathChar = p := by
    rw [takeWhileAppendAll _ hpc, List.takeWhile_cons, if_neg (by decide)]
    simp
  have hdr1 : (p ++ ':' :: (natToStr a ++ '-' :: (natToStr b ++ ']' :: ']' :: post))).dropWhile
      isPathChar = ':' :: (natToStr a ++ '-' :: (natToStr b ++ ']' :: ']' :: post)) := by
    rw [dropWhileAppendAll _ hpc, List.dropWhile_cons, if_neg (by decide)]
  have htk2 : (natToStr a ++ '-' :: (natToStr b ++ ']' :: ']' :: post)).takeWhile isDigitChar =
      natToStr a := by
    rw [takeWhileAppendAll _ (hdig a), List.takeWhile_cons, if_neg (by decide)]
    simp
  have hdr2 : (natToStr a ++ '-' :: (natToStr b ++ ']' :: ']' :: post)).dropWhile isDigitChar =
      '-' :: (natToStr b ++ ']' :: ']' :: post) := by
    rw [dropWhileAppendAll _ (hdig a), List.dropWhile_cons, if_neg (by decide)]
  have htk3 : (natToStr b ++ ']' :: ']' :: post).takeWhile isDigitChar = natToStr b := by
    rw [takeWhileAppendAll _ (hdig b), List.takeWhile_cons, if_neg (by decide)]
    simp
  have hdr3 : (natToStr b ++ ']' :: ']' :: post).dropWhile isDigitChar =
      ']' :: ']' :: post := by
    rw [dropWhileAppendAll _ (hdig b), List.dropWhile_cons, if_neg (by decide)]
  have hA1 : takeWhile1 isPathChar
      (p ++ ':' :: (natToStr a ++ '-' :: (natToStr b ++ ']' :: ']' :: post))) =
      some (p, ':' :: (natToStr a ++ '-' :: (natToStr b ++ ']' :: ']' :: post))) := by
    unfold takeWhile1
    rw [htk1, hdr1, if_neg hp]
  have hA2 : expectChar ':'
      (':' :: (natToStr a ++ '-' :: (natToStr b ++ ']' :: ']' :: post))) =
      some (natToStr a ++ '-' :: (natToStr b ++ ']' :: ']' :: post)) := by
    simp [expectChar]
  have hA3 : takeWhile1 isDigitChar
      (natToStr a ++ '-' :: (natToStr b ++ ']' :: ']' :: post)) =
      some (natToStr a, '-' :: (natToStr b ++ ']' :: ']' :: post)) := by
    unfold takeWhile1
    rw [htk2, hdr2, if_neg (natToStr_ne_nil a)]
  have hA4 : expectChar '-' ('-' :: (natToStr b ++ ']' :: ']' :: post)) =
      some (natToStr b ++ ']' :: ']' :: post) := by
    simp [expectChar]
  have hA5 : takeWhile1 isDigitChar (natToStr b ++ ']' :: ']' :: post) =
      some (natToStr b, ']' :: ']' :: post) := by
    unfold takeWhile1
    rw [htk3, hdr3, if_neg (natToStr_ne_nil b)]
  have hA6 : expectChar ']' (']' :: ']' :: post) = some (']' :: post) := by
    simp [expectChar]
  have hA7 : expectChar ']' (']' :: post) = some post := by
    simp [expectChar]
  conv_lhs => rw [matchCiteAt]
  simp only [hA1, Option.some_bind, hA2, hA3, hA4, hA5, hA6, hA7, Option.map_some']
  simp [digitsToNat_natToStr]

/-- One-step unfolding of the fuelled scan on a non-empty input. -/
theorem scanCitationsAux_cons (owner repo sha : Str) (lineCounts : List (Str × Nat))
    (fuel : Nat) (c : Char) (cs : Str) :
    scanCitationsAux owner repo sha lineCounts (fuel + 1) (c :: cs) =
      match matchCiteAt (c :: cs) with
      | some (pathRaw, startLine, endLine, rest) =>
        let rep := citeReplacement owner repo sha lineCounts pathRaw startLine endLine
        let res := scanCitationsAux owner repo sha lineCounts fuel rest
        (rep.1 ++ res.1,
         match rep.2 with
         | some citation => citation :: res.2
         | none => res.2)
      | none =>
        let res := scanCitationsAux owner repo sha lineCounts fuel cs
        (c :: res.1, res.2) := rfl

/-- The scan is independent of the fuel once the fuel covers the input
length. -/
theorem scanCitationsAux_irrel (owner repo sha : Str) (lineCounts : List (Str × Nat)) :
    ∀ f1 f2 s, s.length ≤ f1 → s.length ≤ f2 →
      scanCitationsAux owner repo sha lineCounts f1 s =
        scanCitationsAux owner repo sha lineCounts f2 s := by
  intro f1
  induction f1 with
  | zero =>
    intro f2 s h1 h2
    have hs : s = [] := List.length_eq_zero.1 (by omega)
    subst hs
    cases f2 <;> rfl
  | succ f1 ih =>
    intro f2 s h1 h2
    cases s with
    | nil => cases f2 <;> rfl
    | cons c cs =>
      cases f2 with
      | zero => simp at h2
      | succ g =>
        cases hm : matchCiteAt (c :: cs) with
        | some quad =>
          obtain ⟨praw, a, b, rest⟩ := quad
          have hlen := matchCiteAt_some_length hm
          rw [scanCitationsAux_cons, scanCitationsAux_cons, hm]
          simp only
          rw [ih g rest (by simp at h1 hlen ⊢; omega) (by simp at h2 hlen ⊢; omega)]
        | none =>
          rw [scanCitationsAux_cons, scanCitationsAux_cons, hm]
          simp only
          rw [ih g cs (by simp at h1 ⊢; omega) (by simp at h2 ⊢; omega)]

/-- The scan of the empty string. -/
theorem scanCitations_nil (owner repo sha : Str) (lineCounts : List (Str × Nat)) :
    scanCitations owner repo sha lineCounts [] = ([], []) := rfl

/-- When no marker matches at the current position, one character is copied
verbatim. -/
theorem scanCitations_cons_none (owner repo sha : Str) (lineCounts : List (Str × Nat))
    {c : Char} {cs : Str} (hm : matchCiteAt (c :: cs) = none) :
    scanCitations owner repo sha lineCounts (c :: cs) =
      (c :: (scanCitations owner repo sha lineCounts cs).1,
       (scanCitations owner repo sha lineCounts cs).2) := by
  unfold scanCitations
  rw [show (c :: cs).length = cs.length + 1 from rfl, scanCitationsAux_cons, hm]

/-- When a marker matches, the match is consumed and replaced according to
`citeReplacement`, and scanning resumes after it. -/
theorem scanCitations_match_some (owner repo sha : Str) (lineCounts : List (Str × Nat))
    {s praw : Str} {a b : Nat} {rest : Str}
    (hm : matchCiteAt s = some (praw, a, b, rest)) :
    scanCitations owner repo sha lineCounts s =
      ((citeReplacement owner repo sha lineCounts praw a b).1 ++
        (scanCitations owner repo sha lineCounts rest).1,
       match (citeReplacement owner repo sha lineCounts praw a b).2 with
       | some citation => citation :: (scanCitations owner repo sha lineCounts rest).2
       | none => (scanCitations owner repo sha lineCounts rest).2) := by
  cases s with
  | nil => exact absurd hm (by simp [matchCiteAt])
  | cons c cs =>
    have hlen := matchCiteAt_some_length hm
    unfold scanCitations
    rw [show (c :: cs).length = cs.length + 1 from rfl, scanCitationsAux_cons, hm]
    simp only
    rw [scanCitationsAux_irrel owner repo sha lineCounts cs.length rest.length rest
      (by simp at hlen ⊢; omega) (Nat.le_refl _)]

/-- A bracket-free string scans to itself with no citations. -/
theorem scanCitations_no_bracket (owner repo sha : Str) (lineCounts : List (Str × Nat))
    {s : Str} (h : '[' ∉ s) :
    scanCitations owner repo sha lineCounts s = (s, []) := by
  induction s with
  | nil => rfl
  | cons c cs ih =>
    have hc : c ≠ '[' := fun hcc => h (hcc ▸ List.mem_cons_self c cs)
    rw [scanCitations_cons_none owner repo sha lineCounts (matchCiteAt_cons_of_ne hc),
      ih (fun hmem => h (List.mem_cons_of_mem c hmem))]

/-- A bracket-free prefix is copied verbatim and contributes no citations. -/
theorem scanCitations_append_no_bracket (owner repo sha : Str) (lineCounts : List (Str × Nat))
    {pre : Str} (md : Str) (hpre : '[' ∉ pre) :
    scanCitations owner repo sha lineCounts (pre ++ md) =
      (pre ++ (scanCitations owner repo sha lineCounts md).1,
       (scanCitations owner repo sha lineCounts md).2) := by
  induction pre with
  | nil => simp
  | cons c cs ih =>
    have hc : c ≠ '[' := fun hcc => hpre (hcc ▸ List.mem_cons_self c cs)
    rw [List.cons_append,
      scanCitations_cons_none owner repo sha lineCounts (matchCiteAt_cons_of_ne hc),
      ih (fun hmem => hpre (List.mem_cons_of_mem c hmem))]
    simp

/-- The replacement callback on a valid marker: the lookup succeeds, the
range fits, and the marker yields its link and citation. -/
theorem citeReplacement_valid (owner repo sha : Str) (lineCounts : List (Str × Nat))
    {p : Str} {a b N : Nat}
    (hptrim : jsTrim p = p) (hN : lookupLast lineCounts p = some N)
    (ha : 1 ≤ a) (hab : a ≤ b) (hbN : b ≤ N) :
    citeReplacement owner repo sha lineCounts p a b =
      (citeLink p a b (buildGitHubPermalink owner repo sha p a (some b)),
       some ⟨p, a, b, buildGitHubPermalink owner repo sha p a (some b)⟩) := by
  unfold citeReplacement
  rw [hptrim]
  dsimp only
  rw [hN]
  simp only [Option.getD_some]
  rw [if_neg (by omega), if_neg (by
    simp only [Bool.or_eq_true, decide_eq_true_eq]
    omega)]

/-- The replacement callback on a rejected marker: unknown path, zero start,
inverted range, or a range past the true line count all produce the empty
replacement and no citation. -/
theorem citeReplacement_invalid (owner repo sha : Str) (lineCounts : List (Str × Nat))
    {p : Str} {a b : Nat} (hptrim : jsTrim p = p)
    (hfail : lookupLast lineCounts p = none ∨ a = 0 ∨ b < a ∨
      (∀ N, lookupLast lineCounts p = some N → N < b)) :
    citeReplacement owner repo sha lineCounts p a b = ([], none) := by
  unfold citeReplacement
  rw [hptrim]
  dsimp only
  cases hlk : lookupLast lineCounts p with
  | none => simp
  | some N =>
    simp only [Option.getD_some]
    by_cases hN0 : N = 0
    · rw [if_pos hN0]
    · rw [if_neg hN0]
      have hcond : (decide (a = 0) || decide (b < a) || decide (N < b)) = true := by
        rcases hfail with h | h | h | h
        · rw [h] at hlk
          exact absurd hlk (by simp)
        · simp [h]
        · simp [h]
        · have := h N hlk
          simp [this]
      rw [if_pos hcond]

/-- C2: a well-formed marker `[[cite:p:a-b]]` whose path is a known key with
`N` true lines and whose range satisfies `1 ≤ a ≤ b ≤ N` is rewritten in
place to the inline link `[p:a-b](url)` and contributes exactly one citation
`⟨p, a, b, url⟩`; the url follows the GitHub permalink template over the
percent-encoded path, and its `-L<b>` range suffix is omitted exactly when
`a = b`.  The surrounding text (bracket-free on both sides) is untouched. -/
theorem parseAndLinkCitations_roundtrip (owner repo sha : Str)
    (lineCounts : List (Str × Nat)) (pre post p : Str) (a b N : Nat)
    (hpre : '[' ∉ pre) (hpost : '[' ∉ post)
    (hp : p ≠ []) (hpc : ∀ c ∈ p, isPathChar c = true) (hptrim : jsTrim p = p)
    (hN : lookupLast lineCounts p = some N)
    (ha : 1 ≤ a) (hab : a ≤ b) (hbN : b ≤ N) :
    parseAndLinkCitations owner repo sha lineCounts (pre ++ citeMarker p a b ++ post) =
      (pre ++ citeLink p a b (buildGitHubPermalink owner repo sha p a (some b)) ++ post,
       [⟨p, a, b, buildGitHubPermalink owner repo sha p a (some b)⟩]) ∧
    buildGitHubPermalink owner repo sha p a (some b) =
      "https://github.com/".data ++ owner ++ '/' :: (repo ++ "/blob/".data ++ sha ++
        '/' :: (joinWith '/' ((splitOnChar '/' p).map encodeURIComponentStr) ++
          (if a = b then '#' :: 'L' :: natToStr a
           else '#' :: 'L' :: (natToStr a ++ '-' :: 'L' :: natToStr b)))) := by
  constructor
  · unfold parseAndLinkCitations
    rw [List.append_assoc,
      scanCitations_append_no_bracket owner repo sha lineCounts _ hpre,
      scanCitations_match_some owner repo sha lineCounts
        (matchCiteAt_marker p a b post hp hpc),
      citeReplacement_valid owner repo sha lineCounts hptrim hN ha hab hbN]
    simp only
    rw [scanCitations_no_bracket owner repo sha lineCounts hpost]
    simp [dedupCitations, List.append_assoc]
  · unfold buildGitHubPermalink
    simp only [Option.getD_some]
    by_cases hab2 : a = b
    · rw [if_neg (by
        simp only [Bool.and_eq_true, decide_eq_true_eq, not_and]
        omega), if_pos hab2]
    · rw [if_pos (by
        simp only [Bool.and_eq_true, decide_eq_true_eq]
        omega), if_neg hab2]

/-- C3: a marker whose path is unknown (never fetched), whose start is zero,
whose range is inverted, or whose end exceeds the true line count, is
replaced by the empty string, contributes no citation, and the surrounding
prose is preserved. -/
theorem parseAndLinkCitations_rejects (owner repo sha : Str)
    (lineCounts : List (Str × Nat)) (pre post p : Str) (a b : Nat)
    (hpre : '[' ∉ pre) (hpost : '[' ∉ post)
    (hp : p ≠ []) (hpc : ∀ c ∈ p, isPathChar c = true) (hptrim : jsTrim p = p)
    (hfail : lookupLast lineCounts p = none ∨ a = 0 ∨ b < a ∨
      (∀ N, lookupLast lineCounts p = some N → N < b)) :
    parseAndLinkCitations owner repo sha lineCounts (pre ++ citeMarker p a b ++ post) =
      (pre ++ post, []) := by
  unfold parseAndLinkCitations
  rw [List.append_assoc,
    scanCitations_append_no_bracket owner repo sha lineCounts _ hpre,
    scanCitations_match_some owner repo sha lineCounts
      (matchCiteAt_marker p a b post hp hpc),
    citeReplacement_invalid owner repo sha lineCounts hptrim hfail]
  simp only
  rw [scanCitations_no_bracket owner repo sha lineCounts hpost]
  simp [dedupCitations]

/-- A string in which no position matches the marker regex scans to itself
with no citations. -/
theorem scanCitations_no_match (owner repo sha : Str) (lineCounts : List (Str × Nat))
    {md : Str} (h : hasCiteMatch md = false) :
    scanCitations owner repo sha lineCounts md = (md, []) := by
  induction md with
  | nil => rfl
  | cons c cs ih =>
    unfold hasCiteMatch at h
    rw [Bool.or_eq_false_iff] at h
    have hm : matchCiteAt (c :: cs) = none := Option.not_isSome_iff_eq_none.1 (by simp [h.1])
    rw [scanCitations_cons_none owner repo sha lineCounts hm, ih h.2]

/-- C10: `parseAndLinkCitations` modifies nothing outside exact matches of
the marker regex: an input with no match anywhere is returned verbatim with
no citations, and a match-free (bracket-free) prefix is always copied
verbatim, contributing no citation, whatever follows it. -/
theorem parseAndLinkCitations_locality (owner repo sha : Str)
    (lineCounts : List (Str × Nat)) :
    (∀ md, hasCiteMatch md = false →
      parseAndLinkCitations owner repo sha lineCounts md = (md, [])) ∧
    (∀ pre md, '[' ∉ pre →
      parseAndLinkCitations owner repo sha lineCounts (pre ++ md) =
        (pre ++ (parseAndLinkCitations owner repo sha lineCounts md).1,
         (parseAndLinkCitations owner repo sha lineCounts md).2)) := by
  constructor
  · intro md h
    unfold parseAndLinkCitations
    rw [scanCitations_no_match owner repo sha lineCounts h]
    rfl
  · intro pre md hpre
    unfold parseAndLinkCitations
    rw [scanCitations_append_no_bracket owner repo sha lineCounts md hpre]

/-- Witness for C2, the spec's round-trip example: `[[cite:src/a.ts:10-20]]`
with 50 true lines becomes the inline link and exactly one citation whose
url ends in `#L10-L20`. -/
theorem parseAndLinkCitations_roundtrip_witness :
    parseAndLinkCitations "acme".data "widgets".data "abc123".data
      [("src/a.ts".data, 50)] "See [[cite:src/a.ts:10-20]] ok.".data =
      ("See [src/a.ts:10-20](https://github.com/acme/widgets/blob/abc123/src/a.ts#L10-L20) ok.".data,
       [⟨"src/a.ts".data, 10, 20,
         "https://github.com/acme/widgets/blob/abc123/src/a.ts#L10-L20".data⟩]) := by
  have h := (parseAndLinkCitations_roundtrip "acme".data "widgets".data "abc123".data
    [("src/a.ts".data, 50)] "See ".data " ok.".data "src/a.ts".data 10 20 50
    (by decide) (by decide) (by decide) (by decide) (by decide) (by decide)
    (by decide) (by decide) (by decide)).1
  have hmd : "See [[cite:src/a.ts:10-20]] ok.".data =
      "See ".data ++ citeMarker "src/a.ts".data 10 20 ++ " ok.".data := by decide
  rw [hmd]
  exact h.trans (by decide)

/-- Witness for C3, the spec's rejection example: `[[cite:src/a.ts:40-60]]`
with only 50 true lines is dropped, leaving the prose and no citation. -/
theorem parseAndLinkCitations_rejects_witness :
    parseAndLinkCitations "acme".data "widgets".data "abc123".data
      [("src/a.ts".data, 50)] "A [[cite:src/a.ts:40-60]] B".data =
      ("A  B".data, []) := by
  have h := parseAndLinkCitations_rejects "acme".data "widgets".data "abc123".data
    [("src/a.ts".data, 50)] "A ".data " B".data "src/a.ts".data 40 60
    (by decide) (by decide) (by decide) (by decide) (by decide)
    (Or.inr (Or.inr (Or.inr (by
      intro N hN
      have h50 : lookupLast [("src/a.ts".data, (50 : Nat))] "src/a.ts".data = some 50 := by
        decide
      rw [h50] at hN
      injection hN with hNeq
      omega))))
  have hmd : "A [[cite:src/a.ts:40-60]] B".data =
      "A ".data ++ citeMarker "src/a.ts".data 40 60 ++ " B".data := by decide
  rw [hmd]
  exact h.trans (by decide)

/-- Witness for C10: marker-like text that fails the regex (a path with an
extra colon, a single-bracket form, a missing dash) is left verbatim with no
citations. -/
theorem parseAndLinkCitations_locality_witness :
    parseAndLinkCitations "acme".data "widgets".data "abc123".data
      [("a.ts".data, 9)] "x [[cite:a:b:1-2]] [cite:y:1-2] [[cite:a 1 2]] z".data =
      ("x [[cite:a:b:1-2]] [cite:y:1-2] [[cite:a 1 2]] z".data, []) :=
  (parseAndLinkCitations_locality "acme".data "widgets".data "abc123".data
    [("a.ts".data, 9)]).1 _ (by decide)

/-!
Claims C1 and C8 — evidence mapping.  Supporting lemmas about the file map,
the schema parse, the validation pipeline and the fallback.
-/

/-- Unfolding of the last-wins fold behind `findLastFile`. -/
theorem findLastFile_aux {p : Str} (files : List RepoFileContent) :
    ∀ (acc : Option RepoFileContent) (f : RepoFileContent),
      files.foldl (fun acc file => if file.path = p then some file else acc) acc = some f →
      (f ∈ files ∧ f.path = p) ∨ acc = some f := by
  induction files with
  | nil => intro acc f h; exact Or.inr h
  | cons x xs ih =>
    intro acc f h
    rw [List.foldl_cons] at h
    rcases ih _ f h with ⟨hmem, hp⟩ | hacc
    · exact Or.inl ⟨List.mem_cons_of_mem x hmem, hp⟩
    · by_cases hx : x.path = p
      · rw [if_pos hx] at hacc
        injection hacc with h2
        exact Or.inl ⟨h2 ▸ List.mem_cons_self x xs, h2 ▸ hx⟩
      · rw [if_neg hx] at hacc
        exact Or.inr hacc

/-- A successful map lookup returns a fetched file with the looked-up path. -/
theorem findLastFile_some {files : List RepoFileContent} {p : Str} {f : RepoFileContent}
    (h : findLastFile files p = some f) : f ∈ files ∧ f.path = p := by
  rcases findLastFile_aux files none f h with hgood | hbad
  · exact hgood
  · exact absurd hbad (by simp)

/-- Every string has at least one line under the split semantics. -/
theorem countLines_pos (content : Str) : 1 ≤ countLines content := by
  unfold countLines
  exact List.length_pos.2 (splitOnChar_ne_nil '\n' content)

/-- The schema parse returns its input unchanged and only accepts non-empty
evidence lists. -/
theorem subsystemEvidenceParse_some {x y : SubsystemEvidenceOutput}
    (h : subsystemEvidenceParse x = some y) : y = x ∧ x.evidence ≠ [] := by
  unfold subsystemEvidenceParse at h
  split at h
  · exact absurd h (by simp)
  · rename_i hlen
    split at h
    · injection h with h2
      refine ⟨h2.symm, fun hnil => ?_⟩
      rw [hnil] at hlen
      simp at hlen
    · exact absurd h (by simp)

/-- Membership in a stable insertion. -/
theorem mem_insertBy {lt : α → α → Bool} {x y : α} {l : List α} :
    y ∈ insertBy lt x l ↔ y = x ∨ y ∈ l := by
  induction l with
  | nil => simp [insertBy]
  | cons z zs ih =>
    unfold insertBy
    by_cases hz : lt x z
    · simp [hz, List.mem_cons, ih]
    · simp [hz, List.mem_cons, ih]
      tauto

/-- The stable sort permutes membership only. -/
theorem mem_stableSortBy {lt : α → α → Bool} {l : List α} {x : α} :
    x ∈ stableSortBy lt l ↔ x ∈ l := by
  induction l with
  | nil => simp [stableSortBy]
  | cons y ys ih =>
    unfold stableSortBy
    rw [mem_insertBy, ih, List.mem_cons]

/-- Structural bounds carried by every validated evidence item: the line
range is positive, ordered, and within the true line count of the actually
fetched file with that path. -/
theorem mem_validatedEvidenceOf {allFiles : List RepoFileContent} {selectedPaths : List Str}
    {modelEvidence : List EvidenceItem} {item : EvidenceItem}
    (h : item ∈ validatedEvidenceOf allFiles selectedPaths modelEvidence) :
    1 ≤ item.startLine ∧ item.startLine ≤ item.endLine ∧
    ∃ f ∈ allFiles, f.path = item.path ∧ item.endLine ≤ countLines f.content := by
  unfold validatedEvidenceOf at h
  have h1 := List.mem_of_mem_take h
  rw [mem_stableSortBy] at h1
  have hcond := List.of_mem_filter h1
  cases hlc : lineCountOfPath allFiles item.path with
  | none => rw [hlc] at hcond; simp at hcond
  | some m =>
    rw [hlc] at hcond
    simp only [Bool.and_eq_true, decide_eq_true_eq, Bool.not_eq_true'] at hcond
    obtain ⟨⟨⟨_, hstart⟩, hord⟩, hbound⟩ := hcond
    obtain ⟨f, hf, hm⟩ : ∃ f, findLastFile allFiles item.path = some f ∧
        countLines f.content = m := by
      unfold lineCountOfPath at hlc
      rcases Option.map_eq_some'.1 hlc with ⟨f, hf, hfm⟩
      exact ⟨f, hf, hfm⟩
    obtain ⟨hmem, hpath⟩ := findLastFile_some hf
    exact ⟨hstart, hord, f, hmem, hpath, hm ▸ hbound⟩

/-- The fallback on a non-empty file list: up to three files, each cited
from line 1 to `min 40 totalLines`, score `0.4`, generated rationale. -/
theorem fallbackEvidence_eq_ok (subsystem : Subsystem) (files : List RepoFileContent)
    (hne : files ≠ []) :
    fallbackEvidence subsystem files = .ok
      (SubsystemEvidenceOutput.mk subsystem.id subsystem.name
        ((files.take 3).map (fun file =>
          EvidenceItem.mk file.path 1 (min 40 (countLines file.content)) (0.4 : ℚ)
            (fallbackRationale file.path subsystem.name)))) := by
  unfold fallbackEvidence
  rw [List.take_eq_take.mpr (show min (min 3 files.length) files.length = min 3 files.length
    by omega)]
  have hev_ne : (files.take 3).map (fun file =>
      EvidenceItem.mk file.path 1 (min 40 (countLines file.content)) (0.4 : ℚ)
        (fallbackRationale file.path subsystem.name)) ≠ [] := by
    rw [Ne, List.map_eq_nil_iff, List.take_eq_nil_iff]
    simp [hne]
  rw [if_neg hev_ne]
  have hparse : subsystemEvidenceParse (SubsystemEvidenceOutput.mk subsystem.id subsystem.name
      ((files.take 3).map (fun file =>
        EvidenceItem.mk file.path 1 (min 40 (countLines file.content)) (0.4 : ℚ)
          (fallbackRationale file.path subsystem.name)))) = some
      (SubsystemEvidenceOutput.mk subsystem.id subsystem.name
        ((files.take 3).map (fun file =>
          EvidenceItem.mk file.path 1 (min 40 (countLines file.content)) (0.4 : ℚ)
            (fallbackRationale file.path subsystem.name)))) := by
    unfold subsystemEvidenceParse
    rw [if_neg (by
      simp only [List.length_map, Bool.or_eq_true, decide_eq_true_eq, not_or, Nat.not_lt]
      constructor
      · have : files.take 3 ≠ [] := by rw [Ne, List.take_eq_nil_iff]; simp [hne]
        have := List.length_pos.2 this
        omega
      · have := List.length_take 3 files
        omega)]
    rw [if_pos (by
      rw [List.all_eq_true]
      intro item hitem
      rcases List.mem_map.1 hitem with ⟨f, hf, rfl⟩
      have hc := countLines_pos f.content
      simp only [Bool.and_eq_true, decide_eq_true_eq]
      refine ⟨⟨⟨by omega, by omega⟩, by norm_num⟩, by norm_num⟩)]
  rw [hparse]

/-- The fallback with no available file fails with `EMPTY_EVIDENCE_CONTEXT`. -/
theorem fallbackEvidence_nil (subsystem : Subsystem) :
    fallbackEvidence subsystem [] = .error .EMPTY_EVIDENCE_CONTEXT := rfl

/-- Bounds carried by every fallback evidence item. -/
theorem fallbackEvidence_ok_bounds {subsystem : Subsystem} {files : List RepoFileContent}
    {se : SubsystemEvidenceOutput} (h : fallbackEvidence subsystem files = .ok se) :
    ∀ item ∈ se.evidence, 1 ≤ item.startLine ∧ item.startLine ≤ item.endLine ∧
      ∃ f ∈ files, f.path = item.path ∧ item.endLine ≤ countLines f.content := by
  by_cases hne : files = []
  · rw [hne, fallbackEvidence_nil] at h
    exact absurd h (by simp)
  · rw [fallbackEvidence_eq_ok subsystem files hne] at h
    injection h with h2
    rw [← h2]
    intro item hitem
    rcases List.mem_map.1 hitem with ⟨f, hf, rfl⟩
    have hc := countLines_pos f.content
    refine ⟨Nat.le_refl 1, ?_, f, List.mem_of_mem_take hf, rfl, ?_⟩
    · show (1 : Nat) ≤ 40 ⊓ countLines f.content
      omega
    · show 40 ⊓ countLines f.content ≤ countLines f.content
      omega

/-- A successful fallback never carries an empty evidence list. -/
theorem fallbackEvidence_ok_ne_nil {subsystem : Subsystem} {files : List RepoFileContent}
    {se : SubsystemEvidenceOutput} (h : fallbackEvidence subsystem files = .ok se) :
    se.evidence ≠ [] := by
  by_cases hne : files = []
  · rw [hne, fallbackEvidence_nil] at h
    exact absurd h (by simp)
  · rw [fallbackEvidence_eq_ok subsystem files hne] at h
    injection h with h2
    rw [← h2]
    rw [Ne, List.map_eq_nil_iff, List.take_eq_nil_iff]
    simp [hne]

/-- Candidate files all come from the fetched file list. -/
theorem mem_candidateFilesOf {allFiles : List RepoFileContent} {selected : List ScoredPath}
    {f : RepoFileContent} (h : f ∈ candidateFilesOf allFiles selected) : f ∈ allFiles := by
  unfold candidateFilesOf at h
  rcases List.mem_filterMap.1 h with ⟨p, _, hp⟩
  exact (findLastFile_some hp).1

/-- Per-subsystem evidence mapping only ever returns bounded evidence items
over actually fetched files, and never an empty evidence list. -/
theorem mapEvidenceForSubsystem_ok_bounds {subsystem : Subsystem}
    {allFiles : List RepoFileContent} {selected : List ScoredPath}
    {modelOutput : SubsystemEvidenceOutput} {se : SubsystemEvidenceOutput}
    (h : mapEvidenceForSubsystem subsystem allFiles selected modelOutput = .ok se) :
    se.evidence ≠ [] ∧
    ∀ item ∈ se.evidence, 1 ≤ item.startLine ∧ item.startLine ≤ item.endLine ∧
      ∃ f ∈ allFiles, f.path = item.path ∧ item.endLine ≤ countLines f.content := by
  unfold mapEvidenceForSubsystem at h
  dsimp only at h
  by_cases hfiles : candidateFilesOf allFiles selected = []
  · rw [if_pos hfiles] at h
    exact ⟨fallbackEvidence_ok_ne_nil h, fallbackEvidence_ok_bounds h⟩
  · rw [if_neg hfiles] at h
    by_cases hval : validatedEvidenceOf allFiles (selectedPathsOf allFiles selected)
        modelOutput.evidence = []
    · rw [if_pos hval] at h
      refine ⟨fallbackEvidence_ok_ne_nil h, fun item hitem => ?_⟩
      obtain ⟨h1, h2, f, hf, h3, h4⟩ := fallbackEvidence_ok_bounds h item hitem
      exact ⟨h1, h2, f, mem_candidateFilesOf hf, h3, h4⟩
    · rw [if_neg hval] at h
      cases hp : subsystemEvidenceParse (SubsystemEvidenceOutput.mk subsystem.id subsystem.name
          (validatedEvidenceOf allFiles (selectedPathsOf allFiles selected)
            modelOutput.evidence))
      · rw [hp] at h; exact absurd h (by simp)
      · rw [hp] at h
        injection h with h2
        obtain ⟨hy, hev⟩ := subsystemEvidenceParse_some hp
        subst h2
        rw [hy]
        exact ⟨hev, fun item hitem => mem_validatedEvidenceOf hitem⟩

/-- Every element of a successfully joined batch comes from a successful
entry of the batch. -/
theorem traverseExcept_ok {xs : List (Except ErrorCode α)} {out : List α}
    (h : traverseExcept xs = .ok out) : ∀ y ∈ out, ∃ x ∈ xs, x = .ok y := by
  induction xs generalizing out with
  | nil =>
    intro y hy
    unfold traverseExcept at h
    injection h with h2
    rw [← h2] at hy
    simp at hy
  | cons x xs ih =>
    intro y hy
    unfold traverseExcept at h
    cases x with
    | error e => exact absurd h (by simp)
    | ok a =>
      cases ht : traverseExcept xs with
      | error e => rw [ht] at h; exact absurd h (by simp)
      | ok as =>
        rw [ht] at h
        injection h with h2
        rw [← h2] at hy
        rcases List.mem_cons.1 hy with rfl | hmem
        · exact ⟨.ok y, List.mem_cons_self _ _, rfl⟩
        · obtain ⟨x', hx', hx'ok⟩ := ih ht y hmem
          exact ⟨x', List.mem_cons_of_mem _ hx', hx'ok⟩

/-- C1: every evidence item of every `SubsystemEvidence` returned by
`mapEvidenceForSubsystems` — whether it survived validation of the model
output or came from the deterministic fallback — satisfies
`1 ≤ startLine ≤ endLine ≤ countLines(content)` for the actually fetched
file whose path it cites. -/
theorem mapEvidenceForSubsystems_evidence_bounds (subsystems : List Subsystem)
    (files : List RepoFileContent) (selectedPathsBySubsystem : List (Str × List ScoredPath))
    (gen : Subsystem → SubsystemEvidenceOutput) (out : List SubsystemEvidenceOutput)
    (h : mapEvidenceForSubsystems subsystems files selectedPathsBySubsystem gen = .ok out) :
    ∀ se ∈ out, ∀ item ∈ se.evidence,
      1 ≤ item.startLine ∧ item.startLine ≤ item.endLine ∧
      ∃ f ∈ files, f.path = item.path ∧ item.endLine ≤ countLines f.content := by
  intro se hse
  unfold mapEvidenceForSubsystems at h
  obtain ⟨x, hx, hxok⟩ := traverseExcept_ok h se hse
  obtain ⟨subsystem, hsub, hmap⟩ := List.mem_map.1 hx
  exact (mapEvidenceForSubsystem_ok_bounds (hmap.trans hxok)).2

/-- Witness for C1: a run in which the one subsystem has no selected
candidates falls back to the fetched file, and the returned item respects
the bound invariant computed from the actual content. -/
theorem mapEvidenceForSubsystems_evidence_bounds_witness :
    (mapEvidenceForSubsystems
      [Subsystem.mk "auth".data "Authentication".data "d".data "j".data [] [] []]
      [RepoFileContent.mk "src/auth.ts".data "line1\nline2".data] []
      (fun _ => SubsystemEvidenceOutput.mk [] [] []) =
      .ok [SubsystemEvidenceOutput.mk "auth".data "Authentication".data
        [EvidenceItem.mk "src/auth.ts".data 1 2 (0.4 : ℚ)
          (fallbackRationale "src/auth.ts".data "Authentication".data)]]) ∧
    ∀ se ∈ [SubsystemEvidenceOutput.mk "auth".data "Authentication".data
        [EvidenceItem.mk "src/auth.ts".data 1 2 (0.4 : ℚ)
          (fallbackRationale "src/auth.ts".data "Authentication".data)]],
      ∀ item ∈ se.evidence,
      1 ≤ item.startLine ∧ item.startLine ≤ item.endLine ∧
      ∃ f ∈ [RepoFileContent.mk "src/auth.ts".data "line1\nline2".data],
        f.path = item.path ∧ item.endLine ≤ countLines f.content := by
  have hfb := fallbackEvidence_eq_ok
    (Subsystem.mk "auth".data "Authentication".data "d".data "j".data [] [] [])
    [RepoFileContent.mk "src/auth.ts".data "line1\nline2".data] (by simp)
  have hrun : mapEvidenceForSubsystems
      [Subsystem.mk "auth".data "Authentication".data "d".data "j".data [] [] []]
      [RepoFileContent.mk "src/auth.ts".data "line1\nline2".data] []
      (fun _ => SubsystemEvidenceOutput.mk [] [] []) =
      .ok [SubsystemEvidenceOutput.mk "auth".data "Authentication".data
        [EvidenceItem.mk "src/auth.ts".data 1 2 (0.4 : ℚ)
          (fallbackRationale "src/auth.ts".data "Authentication".data)]] := by
    unfold mapEvidenceForSubsystems
    simp only [List.map_cons, List.map_nil]
    unfold mapEvidenceForSubsystem
    dsimp only
    rw [if_pos (show candidateFilesOf
      [RepoFileContent.mk "src/auth.ts".data "line1\nline2".data]
      ((lookupLast [] "auth".data).getD []) = [] from rfl)]
    rw [hfb]
    exact rfl
  exact ⟨hrun, mapEvidenceForSubsystems_evidence_bounds _ _ _ _ _ hrun⟩

/-- C8: the deterministic fallback policy of evidence mapping.  With no
fetched candidate files, or with zero valid model items, the subsystem falls
back to up to three of the available files, each cited from line 1 to
`min 40 totalLines` at the fixed score `0.4` with a generated rationale;
with no file available at all the call fails with `EMPTY_EVIDENCE_CONTEXT`;
and a subsystem never proceeds with zero evidence items. -/
theorem mapEvidence_fallback_policy :
    (∀ (subsystem : Subsystem) (files : List RepoFileContent), files ≠ [] →
      fallbackEvidence subsystem files = .ok
        (SubsystemEvidenceOutput.mk subsystem.id subsystem.name
          ((files.take 3).map (fun file =>
            EvidenceItem.mk file.path 1 (min 40 (countLines file.content)) (0.4 : ℚ)
              (fallbackRationale file.path subsystem.name))))) ∧
    (∀ subsystem : Subsystem,
      fallbackEvidence subsystem [] = .error .EMPTY_EVIDENCE_CONTEXT) ∧
    (∀ (subsystem : Subsystem) (allFiles : List RepoFileContent)
        (selected : List ScoredPath) (modelOutput : SubsystemEvidenceOutput),
      candidateFilesOf allFiles selected = [] →
      mapEvidenceForSubsystem subsystem allFiles selected modelOutput =
        fallbackEvidence subsystem allFiles) ∧
    (∀ (subsystem : Subsystem) (allFiles : List RepoFileContent)
        (selected : List ScoredPath) (modelOutput : SubsystemEvidenceOutput),
      candidateFilesOf allFiles selected ≠ [] →
      validatedEvidenceOf allFiles (selectedPathsOf allFiles selected)
        modelOutput.evidence = [] →
      mapEvidenceForSubsystem subsystem allFiles selected modelOutput =
        fallbackEvidence subsystem (candidateFilesOf allFiles selected)) ∧
    (∀ (subsystem : Subsystem) (selected : List ScoredPath)
        (modelOutput : SubsystemEvidenceOutput),
      mapEvidenceForSubsystem subsystem [] selected modelOutput =
        .error .EMPTY_EVIDENCE_CONTEXT) ∧
    (∀ (subsystems : List Subsystem) (files : List RepoFileContent)
        (selectedPathsBySubsystem : List (Str × List ScoredPath))
        (gen : Subsystem → SubsystemEvidenceOutput) (out : List SubsystemEvidenceOutput),
      mapEvidenceForSubsystems subsystems files selectedPathsBySubsystem gen = .ok out →
      ∀ se ∈ out, se.evidence ≠ []) := by
  have hnocand : ∀ (subsystem : Subsystem) (allFiles : List RepoFileContent)
      (selected : List ScoredPath) (modelOutput : SubsystemEvidenceOutput),
      candidateFilesOf allFiles selected = [] →
      mapEvidenceForSubsystem subsystem allFiles selected modelOutput =
        fallbackEvidence subsystem allFiles := by
    intro subsystem allFiles selected modelOutput hc
    unfold mapEvidenceForSubsystem
    dsimp only
    rw [if_pos hc]
  refine ⟨fallbackEvidence_eq_ok, fallbackEvidence_nil, hnocand, ?_, ?_, ?_⟩
  · intro subsystem allFiles selected modelOutput hc hval
    unfold mapEvidenceForSubsystem
    dsimp only
    rw [if_neg hc, if_pos hval]
  · intro subsystem selected modelOutput
    have hc : candidateFilesOf [] selected = [] := by
      unfold candidateFilesOf
      exact List.filterMap_eq_nil_iff.mpr (fun p _ => rfl)
    rw [hnocand subsystem [] selected modelOutput hc, fallbackEvidence_nil]
  · intro subsystems files selectedPathsBySubsystem gen out h se hse
    unfold mapEvidenceForSubsystems at h
    obtain ⟨x, hx, hxok⟩ := traverseExcept_ok h se hse
    obtain ⟨subsystem, hsub, hmap⟩ := List.mem_map.1 hx
    exact (mapEvidenceForSubsystem_ok_bounds (hmap.trans hxok)).1

/-- Witness for C8: the fallback on one short file cites lines 1–2 at score
`0.4`, and the fallback with no file fails with `EMPTY_EVIDENCE_CONTEXT`. -/
theorem mapEvidence_fallback_policy_witness :
    fallbackEvidence
      (Subsystem.mk "auth".data "Authentication".data "d".data "j".data [] [] [])
      [RepoFileContent.mk "src/auth.ts".data "line1\nline2".data] =
      .ok (SubsystemEvidenceOutput.mk "auth".data "Authentication".data
        [EvidenceItem.mk "src/auth.ts".data 1 2 (0.4 : ℚ)
          (fallbackRationale "src/auth.ts".data "Authentication".data)]) ∧
    fallbackEvidence
      (Subsystem.mk "auth".data "Authentication".data "d".data "j".data [] [] []) [] =
      .error .EMPTY_EVIDENCE_CONTEXT :=
  ⟨(mapEvidence_fallback_policy.1
      (Subsystem.mk "auth".data "Authentication".data "d".data "j".data [] [] [])
      [RepoFileContent.mk "src/auth.ts".data "line1\nline2".data] (by simp)).trans rfl,
    mapEvidence_fallback_policy.2.1
      (Subsystem.mk "auth".data "Authentication".data "d".data "j".data [] [] [])⟩
